import Mathlib

/-!
# Node readiness gate controller

A shallow embedding of `pkg/controller/readinessgate.go`: the rule cache, the
selector check, the condition lookup, the taint operations, `processNode` and the
event handlers, followed by theorems about them.

Conventions of the embedding:

* Go string types (`corev1.ConditionStatus`, `corev1.TaintEffect`,
  `corev1.NodeConditionType`) are `String`.
* A Go `map[string]string` is an optional association list; `none` is the nil map.
* `node.DeepCopy()` is the identity: values are immutable here.
* The effects of the controller are the readings of `time.Now()` and the objects
  handed to `clientset.CoreV1().Nodes().Update`. Both are threaded through an
  explicit `World`. The value returned by `Update` only selects a log line, so the
  controller state does not depend on it; what the object store does with a
  submitted object is described separately by `storeApply`.
* Logging through `klog` has no effect on the state and is left out.
* A handler that can panic returns `Except Panic`; every other function is total.
* The rule map stores the pointers of its callers: `RuleCache` holds the map of
  pointers and the heap they point into; `ReadinessGateController` is the map as
  `processNode` reads it, with every pointer dereferenced.

The namespace `Engine` holds the rule resource of `api/v1alpha1` and the
bootstrap-only state machine, which is described by the specification and tested by
`internal/controller/node_controller_test.go` but whose code is not among the
sources.
-/

namespace ReadinessGate

/-! ## Data model -/

/-- Mirror of `corev1.ConditionStatus`, a string type. -/
abbrev ConditionStatus := String

/-- Mirror of `corev1.ConditionTrue`. -/
abbrev ConditionTrue : ConditionStatus := "True"

/-- Mirror of `corev1.ConditionFalse`. -/
abbrev ConditionFalse : ConditionStatus := "False"

/-- Mirror of `corev1.ConditionUnknown`. -/
abbrev ConditionUnknown : ConditionStatus := "Unknown"

/-- Mirror of `corev1.TaintEffect`, a string type. -/
abbrev TaintEffect := String

/-- Mirror of `corev1.TaintEffectNoSchedule`. -/
abbrev TaintEffectNoSchedule : TaintEffect := "NoSchedule"

/-- Mirror of `corev1.TaintEffectNoExecute`. -/
abbrev TaintEffectNoExecute : TaintEffect := "NoExecute"

/-- A reading of the wall clock (`metav1.Time`). -/
abbrev Time := Nat

/-- A Go `map[string]string`; `none` is the nil map. -/
abbrev StringMap := Option (List (String × String))

/-- The entries of a map; the nil map has none. -/
def StringMap.entries : StringMap → List (String × String)
  | none => []
  | some kvs => kvs

/-- Go `len(m)`. -/
def StringMap.len (m : StringMap) : Nat := m.entries.length

/-- Go `v, ok := m[k]`. -/
def StringMap.get? (m : StringMap) (k : String) : Option String := m.entries.lookup k

/-- Mirror of `corev1.Taint`. -/
structure Taint where
  Key : String
  Value : String
  Effect : TaintEffect
  TimeAdded : Option Time
deriving DecidableEq

/-- The fields of `corev1.NodeCondition` that the controller reads; `Type_` is the
Go field `Type`. -/
structure NodeCondition where
  Type_ : String
  Status : ConditionStatus
deriving DecidableEq

/-- Mirror of `corev1.NodeSpec`, restricted to the taint list. -/
structure NodeSpec where
  Taints : List Taint
deriving DecidableEq

/-- Mirror of `corev1.NodeStatus`, restricted to the condition list. -/
structure NodeStatus where
  Conditions : List NodeCondition
deriving DecidableEq

/-- Mirror of `corev1.Node`, restricted to what the controller reads or copies. -/
structure Node where
  Name : String
  Labels : StringMap
  Annotations : StringMap
  Spec : NodeSpec
  Status : NodeStatus
deriving DecidableEq

/-- Mirror of `NodeReadinessRule` in `pkg/controller/readinessgate.go`. -/
structure NodeReadinessRule where
  ConditionType : String
  TaintKey : String
  TaintEffect : TaintEffect
  NodeSelector : StringMap
  RequiredStatus : ConditionStatus
deriving DecidableEq

/-- Mirror of `ReadinessGateController` as `processNode` reads it: the rule map with
every pointer dereferenced at the time of the call, as an association list keyed
by condition type. Go iterates a map in an unspecified order; here the order is
that of the list, and statements quantify over every list. The map with its
pointers is `RuleCache`. -/
structure ReadinessGateController where
  readinessRules : List (String × NodeReadinessRule)

/-- The address of a rule: a value of type `*NodeReadinessRule`. -/
abbrev RulePtr := Nat

/-- The rule map of `ReadinessGateController` with its pointers: `readinessRules` is
the Go map `map[string]*NodeReadinessRule` as an association list, `heap` gives the
rule each pointer points at. The caller of `AddReadinessRule` keeps its pointer and
can write through it. -/
structure RuleCache where
  heap : RulePtr → NodeReadinessRule
  readinessRules : List (String × RulePtr)

/-- The effects of the controller: how many times `time.Now()` was read, and the
node objects handed to `Nodes().Update`, oldest first. -/
structure World where
  ticks : Nat
  updates : List Node

/-! ## Label selectors (`k8s.io/apimachinery`)

The label library is not part of the repository. Its validation of keys and
values is a parameter; conversion and matching follow the library for
`MatchLabels`, whose entries become `Equals` requirements. -/

/-- The checks `labels.NewRequirement` runs on a key and on a value. -/
structure LabelValidation where
  validateLabelKey : String → Bool
  validateLabelValue : String → Bool

/-- A `labels.Requirement` with operator `Equals`. -/
structure Requirement where
  key : String
  value : String
deriving DecidableEq

/-- Conversion of the entries of `MatchLabels` to requirements; fails at an entry
that `labels.NewRequirement` rejects. -/
def newRequirements (lv : LabelValidation) : List (String × String) → Option (List Requirement)
  | [] => some []
  | (k, v) :: rest =>
    if lv.validateLabelKey k && lv.validateLabelValue v then
      (newRequirements lv rest).map (fun rs => { key := k, value := v } :: rs)
    else none

/-- Mirror of `metav1.LabelSelectorAsSelector` on a selector that only has `MatchLabels`. -/
def LabelSelectorAsSelector (lv : LabelValidation) (matchLabels : StringMap) :
    Option (List Requirement) :=
  newRequirements lv matchLabels.entries

/-- Mirror of `Requirement.Matches` for `Equals`: the label is present with that value. -/
def Requirement.Matches (r : Requirement) (ls : StringMap) : Bool :=
  match ls.get? r.key with
  | some v => v == r.value
  | none => false

/-- Mirror of `selector.Matches`: every requirement matches. -/
def selectorMatches (selector : List Requirement) (ls : StringMap) : Bool :=
  selector.all (fun r => r.Matches ls)

/-! ## The controller -/

/-- Mirror of `AddReadinessRule`: `r.readinessRules[rule.ConditionType] = rule`. The
key is read through the pointer; the pointer itself is stored. -/
def AddReadinessRule (r : RuleCache) (rule : RulePtr) : RuleCache :=
  let key := (r.heap rule).ConditionType
  let entries :=
    if r.readinessRules.any (fun e => e.1 == key) then
      r.readinessRules.map (fun e => if e.1 == key then (e.1, rule) else e)
    else r.readinessRules ++ [(key, rule)]
  { r with readinessRules := entries }

/-- Mirror of `RemoveReadinessRule`: `delete(r.readinessRules, conditionType)`. -/
def RemoveReadinessRule (r : RuleCache) (conditionType : String) : RuleCache :=
  { r with readinessRules := r.readinessRules.filter (fun e => !(e.1 == conditionType)) }

/-- Mirror of `ruleAppliesTo`. -/
def ruleAppliesTo (lv : LabelValidation) (rule : NodeReadinessRule) (node : Node) : Bool :=
  if rule.NodeSelector.len == 0 then true
  else
    match LabelSelectorAsSelector lv rule.NodeSelector with
    | none => false
    | some selector => selectorMatches selector node.Labels

/-- Mirror of `getApplicableRulesForNode`. -/
def getApplicableRulesForNode (lv : LabelValidation) (r : ReadinessGateController)
    (node : Node) : List NodeReadinessRule :=
  (r.readinessRules.map Prod.snd).filter (fun rule => ruleAppliesTo lv rule node)

/-- Mirror of `getConditionStatus`: the status of the first condition of the type. -/
def getConditionStatus (node : Node) (conditionType : String) : ConditionStatus :=
  match node.Status.Conditions.find? (fun condition => condition.Type_ == conditionType) with
  | some condition => condition.Status
  | none => ConditionUnknown

/-- The test both `hasTaint` and `removeTaint` apply to a taint. -/
def taintMatches (taintKey : String) (taintEffect : TaintEffect) (taint : Taint) : Bool :=
  taint.Key == taintKey && taint.Effect == taintEffect

/-- Mirror of `hasTaint`. -/
def hasTaint (node : Node) (taintKey : String) (taintEffect : TaintEffect) : Bool :=
  node.Spec.Taints.any (taintMatches taintKey taintEffect)

/-- The copy of a node (`node.DeepCopy()`) with `Spec.Taints` replaced. -/
def Node.withTaints (node : Node) (taints : List Taint) : Node :=
  { node with Spec := { Taints := taints } }

/-- Mirror of `addTaint`: reads the clock, appends the new taint to a copy of the
node and submits the copy. -/
def addTaint (now : Nat → Time) (w : World) (node : Node) (taintKey : String)
    (taintEffect : TaintEffect) : World :=
  let newTaint : Taint :=
    { Key := taintKey, Value := "", Effect := taintEffect, TimeAdded := some (now w.ticks) }
  let nodeCopy : Node := node.withTaints (node.Spec.Taints ++ [newTaint])
  { ticks := w.ticks + 1, updates := w.updates ++ [nodeCopy] }

/-- Mirror of `removeTaint`: keeps the taints that do not match, in a copy of the
node, and submits the copy. -/
def removeTaint (w : World) (node : Node) (taintKey : String) (taintEffect : TaintEffect) :
    World :=
  let newTaints := node.Spec.Taints.filter (fun taint => !(taintMatches taintKey taintEffect taint))
  let nodeCopy : Node := node.withTaints newTaints
  { w with updates := w.updates ++ [nodeCopy] }

/-- The local `shouldHaveTaint` of `processNode`:
`conditionStatus != readinessRule.RequiredStatus`. -/
def shouldHaveTaint (node : Node) (readinessRule : NodeReadinessRule) : Bool :=
  getConditionStatus node readinessRule.ConditionType != readinessRule.RequiredStatus

/-- The body of the loop of `processNode` for one applicable rule. -/
def processRule (now : Nat → Time) (node : Node) (w : World) (readinessRule : NodeReadinessRule) :
    World :=
  let shouldHaveTaint := shouldHaveTaint node readinessRule
  let has := hasTaint node readinessRule.TaintKey readinessRule.TaintEffect
  if shouldHaveTaint && !has then
    addTaint now w node readinessRule.TaintKey readinessRule.TaintEffect
  else if !shouldHaveTaint && has then
    removeTaint w node readinessRule.TaintKey readinessRule.TaintEffect
  else w

/-- Mirror of `processNode`. -/
def processNode (lv : LabelValidation) (now : Nat → Time) (c : ReadinessGateController)
    (w : World) (node : Node) : World :=
  (getApplicableRulesForNode lv c node).foldl (processRule now node) w

/-- The world before the controller has done anything. -/
def World.init : World := { ticks := 0, updates := [] }

/-! ## Event handlers

The informer hands its handlers values of type `interface{}`. On add and update it
delivers a `*corev1.Node`; on delete it delivers the node or, when the final state
was not observed, a `cache.DeletedFinalStateUnknown` tombstone. A failed type
assertion without the two-value form is a run-time panic. -/

/-- A value of type `interface{}` as the informer delivers it: a `*corev1.Node`, or a
`cache.DeletedFinalStateUnknown` with its `Key` and `Obj`. -/
inductive Object where
  | node (n : Node)
  | deletedFinalStateUnknown (Key : String) (Obj : Object)

/-- A Go run-time panic. -/
inductive Panic where
  | interfaceConversion
deriving DecidableEq

/-- The type assertion `obj.(*corev1.Node)`: it panics on every other dynamic type. -/
def assertNode : Object → Except Panic Node
  | Object.node n => Except.ok n
  | Object.deletedFinalStateUnknown _ _ => Except.error Panic.interfaceConversion

/-- Mirror of `handleNodeAdd`. -/
def handleNodeAdd (lv : LabelValidation) (now : Nat → Time) (c : ReadinessGateController)
    (w : World) (obj : Object) : Except Panic World :=
  match assertNode obj with
  | Except.error p => Except.error p
  | Except.ok node => Except.ok (processNode lv now c w node)

/-- Mirror of `handleNodeUpdate`; the old object is not looked at. -/
def handleNodeUpdate (lv : LabelValidation) (now : Nat → Time) (c : ReadinessGateController)
    (w : World) (_oldObj newObj : Object) : Except Panic World :=
  match assertNode newObj with
  | Except.error p => Except.error p
  | Except.ok node => Except.ok (processNode lv now c w node)

/-- Mirror of `handleNodeDelete`: after the assertion nothing is done. -/
def handleNodeDelete (w : World) (obj : Object) : Except Panic World :=
  match assertNode obj with
  | Except.error p => Except.error p
  | Except.ok _ => Except.ok w

/-! ## The object store

`Nodes().Update` hands an object to the API server, which either writes it or
rejects it. The policy is a parameter: `accept stored submitted`. -/

/-- The stored node after a sequence of submitted objects. -/
def storeApply (accept : Node → Node → Bool) (stored : Node) : List Node → Node
  | [] => stored
  | u :: rest => storeApply accept (if accept stored u then u else stored) rest

/-- The stored node after one call of `processNode` on `node`, when the store held
`node` before the call and the recording of updates starts empty. -/
def reconcileOnce (lv : LabelValidation) (now : Nat → Time) (accept : Node → Node → Bool)
    (ticks : Nat) (c : ReadinessGateController) (node : Node) : Node :=
  storeApply accept node (processNode lv now c { ticks := ticks, updates := [] } node).updates

/-- A store that writes every submitted object. -/
def acceptAll : Node → Node → Bool := fun _ _ => true

/-- The rule needs the taint list of the node changed: `shouldHaveTaint` and
`hasTaint` disagree. -/
def needsChange (node : Node) (rule : NodeReadinessRule) : Bool :=
  shouldHaveTaint node rule != hasTaint node rule.TaintKey rule.TaintEffect

/-- The object `u` is what `processNode` submits for `rule` on `node`: the node with
the taint of the rule appended (some timestamp, empty value) when the taint is due
and absent, or the node without the taints matching the rule when the taint is
present and not due. -/
def IsUpdateFor (node : Node) (rule : NodeReadinessRule) (u : Node) : Prop :=
  (shouldHaveTaint node rule = true ∧ hasTaint node rule.TaintKey rule.TaintEffect = false ∧
    ∃ t : Time, u = node.withTaints (node.Spec.Taints ++
      [{ Key := rule.TaintKey, Value := "", Effect := rule.TaintEffect, TimeAdded := some t }])) ∨
  (shouldHaveTaint node rule = false ∧ hasTaint node rule.TaintKey rule.TaintEffect = true ∧
    u = node.withTaints
      (node.Spec.Taints.filter (fun t => !(taintMatches rule.TaintKey rule.TaintEffect t))))

/-- Some rule of the cache manages the (key, effect) pair of the taint. -/
def managedBy (c : ReadinessGateController) (taint : Taint) : Bool :=
  c.readinessRules.any (fun entry => taintMatches entry.2.TaintKey entry.2.TaintEffect taint)

/-- The rules of the cache have pairwise distinct (TaintKey, TaintEffect) pairs. -/
def distinctTaints (c : ReadinessGateController) : Prop :=
  (c.readinessRules.map (fun entry => (entry.2.TaintKey, entry.2.TaintEffect))).Nodup

/-- Go `r.readinessRules[k]`: the pointer stored under a key, if any. -/
def RuleCache.get? (s : RuleCache) (k : String) : Option RulePtr :=
  s.readinessRules.lookup k

/-- The keys of the rule map, one per entry. A Go map holds a key once. -/
def RuleCache.keys (s : RuleCache) : List String :=
  s.readinessRules.map Prod.fst

/-- A write of the caller through a pointer it holds, such as an assignment to
`rule.ConditionType`. -/
def RuleCache.write (s : RuleCache) (p : RulePtr) (v : NodeReadinessRule) : RuleCache :=
  { s with heap := fun q => if q = p then v else s.heap q }

/-- The rule map as `processNode` reads it: every pointer dereferenced. -/
def RuleCache.deref (s : RuleCache) : ReadinessGateController :=
  { readinessRules := s.readinessRules.map (fun e => (e.1, s.heap e.2)) }

/-- The pointers `getApplicableRulesForNode` returns: those of the map whose rule
applies to the node, in the order of the map. -/
def getApplicableRulePointers (lv : LabelValidation) (s : RuleCache) (node : Node) :
    List RulePtr :=
  (s.readinessRules.map Prod.snd).filter (fun p => ruleAppliesTo lv (s.heap p) node)

/-- The (key, effect) pairs of a taint list, in order. -/
def taintPairs (taints : List Taint) : List (String × TaintEffect) :=
  taints.map (fun t => (t.Key, t.Effect))

/-! ## The rule resource and the bootstrap-only state machine

`api/v1alpha1` declares the rule resource with an enforcement mode, and
`internal/controller/node_controller_test.go` exercises a reconciler that honours
it through a completion annotation. That reconciler is not among the sources; the
definitions of this section that are marked so follow the specification. -/

namespace Engine

/-- Mirror of `ConditionRequirement` in `api/v1alpha1`. -/
structure ConditionRequirement where
  Type_ : String
  RequiredStatus : ConditionStatus
deriving DecidableEq

/-- Mirror of `TaintSpec` in `api/v1alpha1`. -/
structure TaintSpec where
  Key : String
  Effect : TaintEffect
  Value : String
deriving DecidableEq

/-- Mirror of `EnforcementMode` in `api/v1alpha1`: the constants
`EnforcementModeBootstrapOnly` and `EnforcementModeContinuous`. -/
inductive EnforcementMode where
  | bootstrapOnly
  | continuous
deriving DecidableEq

/-- Mirror of `NodeReadinessRule` in `api/v1alpha1`: the name of the object and the
fields of `NodeReadinessRuleSpec`; the grace period is a duration in clock units. -/
structure NodeReadinessRule where
  Name : String
  Conditions : List ConditionRequirement
  EnforcementMode : EnforcementMode
  Taint : TaintSpec
  NodeSelector : StringMap
  GracePeriod : Option Nat
  DryRun : Bool
deriving DecidableEq

/-- Mirror of `ConditionEvaluationResult` in `api/v1alpha1`. -/
structure ConditionEvaluationResult where
  Type_ : String
  CurrentStatus : ConditionStatus
  RequiredStatus : ConditionStatus
  Satisfied : Bool
  Missing : Bool
deriving DecidableEq

/-- Modelled from the spec: the condition evaluator of section 4.2 for one
requirement, whose code is not among the sources. The condition list is read as a
mapping with the last entry of a type winning; an absent condition gives status
`Unknown`, not satisfied, missing. -/
def evaluateCondition (node : Node) (req : ConditionRequirement) : ConditionEvaluationResult :=
  match (node.Status.Conditions.filter (fun cond => cond.Type_ == req.Type_)).getLast? with
  | none =>
    { Type_ := req.Type_, CurrentStatus := ConditionUnknown, RequiredStatus := req.RequiredStatus,
      Satisfied := false, Missing := true }
  | some cond =>
    { Type_ := req.Type_, CurrentStatus := cond.Status, RequiredStatus := req.RequiredStatus,
      Satisfied := cond.Status == req.RequiredStatus, Missing := false }

/-- Modelled from the spec: the aggregate of section 4.2, whose code is not among the
sources: every requirement is satisfied; an empty list is satisfied. -/
def allConditionsSatisfied (node : Node) (rule : NodeReadinessRule) : Bool :=
  rule.Conditions.all (fun req => (evaluateCondition node req).Satisfied)

/-- The annotation key the test file expects on a node that completed a rule. -/
def completionKey (ruleName : String) : String :=
  "readiness.k8s.io/bootstrap-completed-" ++ ruleName

/-- Modelled from the spec: `isCompleted` of section 4.5, whose code is not among the
sources: the node carries the completion marker of the rule. -/
def isCompleted (node : Node) (ruleName : String) : Bool :=
  (node.Annotations.get? (completionKey ruleName)).isSome

/-- Modelled from the spec: `markCompleted` of section 4.5, whose code is not among
the sources: sets the marker; setting a marker that is set changes nothing. -/
def markCompleted (node : Node) (ruleName : String) : Node :=
  if isCompleted node ruleName then node
  else { node with
    Annotations := some ((completionKey ruleName, "true") :: node.Annotations.entries) }

/-- Modelled from the spec: `addTaint` of section 4.3, whose code is not among the
sources: nothing changes when the taint is present, otherwise a taint with the
configured value and the current time is appended. -/
def addTaint (now : Time) (node : Node) (taint : TaintSpec) : Node :=
  if hasTaint node taint.Key taint.Effect then node
  else node.withTaints (node.Spec.Taints ++
    [{ Key := taint.Key, Value := taint.Value, Effect := taint.Effect, TimeAdded := some now }])

/-- Modelled from the spec: `removeTaint` of section 4.3, whose code is not among the
sources: every taint matching (key, effect) is filtered out. -/
def removeTaint (node : Node) (taint : TaintSpec) : Node :=
  if hasTaint node taint.Key taint.Effect then
    node.withTaints (node.Spec.Taints.filter (fun t => !(taintMatches taint.Key taint.Effect t)))
  else node

/-- Modelled from the spec: the grace period of section 4.6, whose code is not among
the sources: without a grace period a taint may be added at once; with one, only when
the unsatisfied state was first seen at least that long ago, and never on the
reconciliation that first sees it. -/
def graceElapsed (now : Time) (firstSeenUnsatisfied : Option Time) (rule : NodeReadinessRule) :
    Bool :=
  match rule.GracePeriod with
  | none => true
  | some grace =>
    match firstSeenUnsatisfied with
    | none => false
    | some t0 => decide (t0 + grace ≤ now)

/-- Modelled from the spec: the step of section 4.6 that brings the taint to the
desired presence, whose code is not among the sources: add when desired and absent
(once the grace period allows it), remove when present and not desired. -/
def applyDesired (now : Time) (firstSeenUnsatisfied : Option Time) (node : Node)
    (rule : NodeReadinessRule) (desired : Bool) : Node :=
  let actual := hasTaint node rule.Taint.Key rule.Taint.Effect
  if desired && !actual then
    if graceElapsed now firstSeenUnsatisfied rule then addTaint now node rule.Taint else node
  else if !desired && actual then removeTaint node rule.Taint
  else node

/-- Modelled from the spec: the taint state machine of section 4.6 for one (node,
rule) pair, whose code (the reconciler of `internal/controller`) is not among the
sources; the result is the node as the engine writes it. A dry-run rule mutates
nothing. In continuous mode the desired presence is the negation of
`allConditionsSatisfied`. In bootstrap-only mode a set completion marker stops every
mutation; without it the desired presence is as in continuous mode and, when the
conditions are satisfied, the marker is set after the taint is removed. -/
def reconcileRule (now : Time) (firstSeenUnsatisfied : Option Time) (node : Node)
    (rule : NodeReadinessRule) : Node :=
  if rule.DryRun then node
  else
    let allSatisfied := allConditionsSatisfied node rule
    match rule.EnforcementMode with
    | EnforcementMode.continuous => applyDesired now firstSeenUnsatisfied node rule (!allSatisfied)
    | EnforcementMode.bootstrapOnly =>
      if isCompleted node rule.Name then node
      else
        let node1 := applyDesired now firstSeenUnsatisfied node rule (!allSatisfied)
        if allSatisfied then markCompleted node1 rule.Name else node1

/-- The rule of the test file as a rule resource in bootstrap-only mode. -/
def bootstrapRule : NodeReadinessRule :=
  { Name := "test-rule",
    Conditions := [{ Type_ := "TestCondition", RequiredStatus := ConditionTrue }],
    EnforcementMode := EnforcementMode.bootstrapOnly,
    Taint := { Key := "test-taint", Effect := TaintEffectNoSchedule, Value := "" },
    NodeSelector := some [("env", "test")], GracePeriod := none, DryRun := false }

end Engine

/-! ## Sample data

The node and the rule of `internal/controller/node_controller_test.go`, and
variations of them. -/

/-- A label validation that accepts every key and value. -/
def lvAll : LabelValidation :=
  { validateLabelKey := fun _ => true, validateLabelValue := fun _ => true }

/-- A taint with the given key and effect, no value and no timestamp. -/
def plainTaint (key : String) (effect : TaintEffect) : Taint :=
  { Key := key, Value := "", Effect := effect, TimeAdded := none }

/-- A taint with key `test-taint`, effect `NoSchedule`, a value and a timestamp. -/
def stampedTaint : Taint :=
  { Key := "test-taint", Value := "v", Effect := TaintEffectNoSchedule, TimeAdded := some 3 }

/-- A node named `test-node` labelled `env=test`. -/
def mkNode (taints : List Taint) (conditions : List NodeCondition) : Node :=
  { Name := "test-node", Labels := some [("env", "test")], Annotations := none,
    Spec := { Taints := taints }, Status := { Conditions := conditions } }

/-- The node of the test file: tainted, with `TestCondition` false. -/
def testNode : Node :=
  mkNode [plainTaint "test-taint" TaintEffectNoSchedule]
    [{ Type_ := "TestCondition", Status := ConditionFalse }]

/-- The rule of the test file: `TestCondition` must be true on nodes labelled `env=test`. -/
def testRule : NodeReadinessRule :=
  { ConditionType := "TestCondition", TaintKey := "test-taint",
    TaintEffect := TaintEffectNoSchedule, NodeSelector := some [("env", "test")],
    RequiredStatus := ConditionTrue }

/-- A cache holding only `testRule`. -/
def testCache : ReadinessGateController :=
  { readinessRules := [("TestCondition", testRule)] }

/-- A rule like `testRule` whose selector is `env=non-existent`. -/
def otherEnvRule : NodeReadinessRule :=
  { testRule with NodeSelector := some [("env", "non-existent")] }

/-- A rule without selector that requires `TestCondition` to be `Unknown`. -/
def unknownRule : NodeReadinessRule :=
  { ConditionType := "TestCondition", TaintKey := "test-taint",
    TaintEffect := TaintEffectNoSchedule, NodeSelector := none,
    RequiredStatus := ConditionUnknown }

/-- A tainted node that reports no condition at all. -/
def silentNode : Node := mkNode [plainTaint "test-taint" TaintEffectNoSchedule] []

/-- A taint that no sample rule manages, carrying a value and a timestamp. -/
def foreignTaint : Taint :=
  { Key := "dedicated", Value := "gpu", Effect := TaintEffectNoExecute, TimeAdded := some 1 }

/-- The test node with the condition satisfied and two foreign taints around the
taint of the rule. -/
def mixedNode : Node :=
  mkNode [foreignTaint, plainTaint "test-taint" TaintEffectNoSchedule,
      plainTaint "other" TaintEffectNoSchedule]
    [{ Type_ := "TestCondition", Status := ConditionTrue }]

/-- A rule without selector: condition `A` must be true, taint `a`. -/
def ruleA : NodeReadinessRule :=
  { ConditionType := "A", TaintKey := "a", TaintEffect := TaintEffectNoSchedule,
    NodeSelector := none, RequiredStatus := ConditionTrue }

/-- A rule without selector: condition `B` must be true, taint `b`. -/
def ruleB : NodeReadinessRule :=
  { ConditionType := "B", TaintKey := "b", TaintEffect := TaintEffectNoSchedule,
    NodeSelector := none, RequiredStatus := ConditionTrue }

/-- A cache holding `ruleA` and `ruleB`. -/
def twoRuleCache : ReadinessGateController :=
  { readinessRules := [("A", ruleA), ("B", ruleB)] }

/-- A node without taints and without conditions. -/
def bareNode : Node := mkNode [] []

/-- The object `processNode` submits for `ruleA` on `bareNode`. -/
def bareNodeWithA : Node :=
  mkNode [{ Key := "a", Value := "", Effect := TaintEffectNoSchedule, TimeAdded := some 7 }] []

/-- The object `processNode` submits for `ruleB` on `bareNode`. -/
def bareNodeWithB : Node :=
  mkNode [{ Key := "b", Value := "", Effect := TaintEffectNoSchedule, TimeAdded := some 7 }] []

/-- The untainted test node with the condition false, carrying the completion
annotation of `test-rule`. -/
def markedNode : Node :=
  { mkNode [] [{ Type_ := "TestCondition", Status := ConditionFalse }] with
    Annotations := some [("readiness.k8s.io/bootstrap-completed-test-rule", "true")] }

/-- A label validation in the style of the library: keys are non-empty, keys and
values hold at most 63 characters. -/
def lvStrict : LabelValidation :=
  { validateLabelKey := fun k => !(k == "") && decide (k.length ≤ 63),
    validateLabelValue := fun v => decide (v.length ≤ 63) }

/-- A rule like `testRule` without selector (the nil map). -/
def nilSelectorRule : NodeReadinessRule := { testRule with NodeSelector := none }

/-- A rule like `testRule` with an empty, non-nil selector. -/
def emptySelectorRule : NodeReadinessRule := { testRule with NodeSelector := some [] }

/-- A rule like `testRule` whose selector has an entry with an empty key. -/
def malformedRule : NodeReadinessRule :=
  { testRule with NodeSelector := some [("env", "test"), ("", "x")] }

/-- A node like `testNode` without labels (the nil map). -/
def unlabelledNode : Node := { testNode with Labels := none }

/-- A node like `testNode` with a second label. -/
def twoLabelNode : Node := { testNode with Labels := some [("zone", "a"), ("env", "test")] }

/-- A node that reports the condition `Ready` twice, first true, then false. -/
def dupNode : Node :=
  mkNode [] [{ Type_ := "Ready", Status := ConditionTrue },
             { Type_ := "Ready", Status := ConditionFalse }]

/-- A rule like `testRule` for the condition `Other` and the taint `other`. -/
def secondRule : NodeReadinessRule :=
  { testRule with ConditionType := "Other", TaintKey := "other" }

/-- A heap in which pointer 0 holds `ruleA` and every other pointer holds `ruleB`. -/
def sampleHeap : RulePtr → NodeReadinessRule := fun p => if p = 0 then ruleA else ruleB

/-- The rule map after `AddReadinessRule` of pointer 0 on the empty map. -/
def cacheAfterAdd : RuleCache :=
  AddReadinessRule { heap := sampleHeap, readinessRules := [] } 0

/-- The rule map after the caller set `ConditionType` of the rule at pointer 0 to `B`
and added the same pointer again. -/
def cacheAliased : RuleCache :=
  AddReadinessRule (cacheAfterAdd.write 0 { ruleA with ConditionType := "B" }) 0

/-- A clock that always reads 7. -/
def clock7 : Nat → Time := fun _ => 7

/-! ## Basic facts about the taint operations -/

theorem taintMatches_iff (k : String) (e : TaintEffect) (t : Taint) :
    taintMatches k e t = true ↔ t.Key = k ∧ t.Effect = e := by
  simp [taintMatches]

theorem hasTaint_iff (node : Node) (k : String) (e : TaintEffect) :
    hasTaint node k e = true ↔ ∃ t ∈ node.Spec.Taints, t.Key = k ∧ t.Effect = e := by
  simp [hasTaint, taintMatches]

theorem hasTaint_eq_false_iff (node : Node) (k : String) (e : TaintEffect) :
    hasTaint node k e = false ↔ ∀ t ∈ node.Spec.Taints, taintMatches k e t = false := by
  simp [hasTaint]

theorem addTaint_updates (now : Nat → Time) (w : World) (node : Node) (k : String)
    (e : TaintEffect) :
    (addTaint now w node k e).updates =
      w.updates ++ [node.withTaints (node.Spec.Taints ++
        [{ Key := k, Value := "", Effect := e, TimeAdded := some (now w.ticks) }])] := rfl

theorem removeTaint_updates (w : World) (node : Node) (k : String) (e : TaintEffect) :
    (removeTaint w node k e).updates =
      w.updates ++
        [node.withTaints (node.Spec.Taints.filter (fun t => !(taintMatches k e t)))] := rfl

theorem processRule_cases (now : Nat → Time) (node : Node) (w : World)
    (r : NodeReadinessRule) :
    (shouldHaveTaint node r = true ∧ hasTaint node r.TaintKey r.TaintEffect = false ∧
        processRule now node w r = addTaint now w node r.TaintKey r.TaintEffect) ∨
    (shouldHaveTaint node r = false ∧ hasTaint node r.TaintKey r.TaintEffect = true ∧
        processRule now node w r = removeTaint w node r.TaintKey r.TaintEffect) ∨
    (shouldHaveTaint node r = hasTaint node r.TaintKey r.TaintEffect ∧
        processRule now node w r = w) := by
  unfold processRule
  cases hs : shouldHaveTaint node r <;> cases hh : hasTaint node r.TaintKey r.TaintEffect <;>
    simp

theorem processNode_of_applicable_single (lv : LabelValidation) (now : Nat → Time)
    (c : ReadinessGateController) (w : World) (node : Node) (rule : NodeReadinessRule)
    (h : getApplicableRulesForNode lv c node = [rule]) :
    processNode lv now c w node = processRule now node w rule := by
  simp [processNode, h]

theorem getApplicableRulesForNode_withTaints (lv : LabelValidation)
    (c : ReadinessGateController) (node : Node) (ts : List Taint) :
    getApplicableRulesForNode lv c (node.withTaints ts) = getApplicableRulesForNode lv c node := rfl

theorem shouldHaveTaint_withTaints (node : Node) (ts : List Taint) (r : NodeReadinessRule) :
    shouldHaveTaint (node.withTaints ts) r = shouldHaveTaint node r := rfl

theorem hasTaint_withTaints_append (node : Node) (k : String) (e : TaintEffect) (t : Taint) :
    hasTaint (node.withTaints (node.Spec.Taints ++ [t])) k e =
      (hasTaint node k e || taintMatches k e t) := by
  simp [hasTaint, Node.withTaints]

theorem hasTaint_withTaints_filter (node : Node) (k k2 : String) (e e2 : TaintEffect) :
    hasTaint (node.withTaints (node.Spec.Taints.filter (fun t => !(taintMatches k2 e2 t)))) k e =
      node.Spec.Taints.any (fun t => !(taintMatches k2 e2 t) && taintMatches k e t) := by
  simp [hasTaint, Node.withTaints, List.any_filter]

/-- The outcome of one call with a single applicable rule, the update being taken. -/
theorem reconcileOnce_single (lv : LabelValidation) (now : Nat → Time)
    (accept : Node → Node → Bool) (ticks : Nat) (c : ReadinessGateController) (node : Node)
    (rule : NodeReadinessRule)
    (happ : getApplicableRulesForNode lv c node = [rule])
    (hacc : ∀ u ∈ (processNode lv now c { ticks := ticks, updates := [] } node).updates,
      accept node u = true) :
    (∃ ts, reconcileOnce lv now accept ticks c node = node.withTaints ts) ∧
    hasTaint (reconcileOnce lv now accept ticks c node) rule.TaintKey rule.TaintEffect =
      shouldHaveTaint node rule := by
  unfold reconcileOnce
  rw [processNode_of_applicable_single lv now c _ node rule happ] at hacc ⊢
  rcases processRule_cases now node { ticks := ticks, updates := [] } rule with
    ⟨hs, hh, hp⟩ | ⟨hs, hh, hp⟩ | ⟨hs, hp⟩
  · rw [hp] at hacc ⊢
    rw [addTaint_updates] at hacc ⊢
    have ha := hacc _ (List.mem_append_right _ (List.mem_singleton_self _))
    simp only [List.nil_append, storeApply, ha, if_true]
    refine ⟨⟨_, rfl⟩, ?_⟩
    rw [hasTaint_withTaints_append, hs]
    simp [taintMatches]
  · rw [hp] at hacc ⊢
    rw [removeTaint_updates] at hacc ⊢
    have ha := hacc _ (List.mem_append_right _ (List.mem_singleton_self _))
    simp only [List.nil_append, storeApply, ha, if_true]
    refine ⟨⟨_, rfl⟩, ?_⟩
    rw [hasTaint_withTaints_filter, hs]
    simp
  · rw [hp]
    simp only [storeApply]
    exact ⟨⟨node.Spec.Taints, rfl⟩, hs.symm⟩

theorem foldl_processRule_mem (now : Nat → Time) (node : Node) (rules : List NodeReadinessRule) :
    ∀ (w : World), ∀ u ∈ (rules.foldl (processRule now node) w).updates,
      u ∈ w.updates ∨ ∃ r ∈ rules, IsUpdateFor node r u := by
  induction rules with
  | nil => intro w u hu; exact Or.inl hu
  | cons r rs ih =>
    intro w u hu
    rw [List.foldl_cons] at hu
    rcases ih (processRule now node w r) u hu with h | ⟨r2, hr2, h⟩
    · rcases processRule_cases now node w r with ⟨hs, hh, hp⟩ | ⟨hs, hh, hp⟩ | ⟨_, hp⟩
      · rw [hp, addTaint_updates] at h
        rcases List.mem_append.1 h with h | h
        · exact Or.inl h
        · exact Or.inr ⟨r, List.mem_cons_self _ _,
            Or.inl ⟨hs, hh, now w.ticks, List.mem_singleton.1 h⟩⟩
      · rw [hp, removeTaint_updates] at h
        rcases List.mem_append.1 h with h | h
        · exact Or.inl h
        · exact Or.inr ⟨r, List.mem_cons_self _ _, Or.inr ⟨hs, hh, List.mem_singleton.1 h⟩⟩
      · rw [hp] at h
        exact Or.inl h
    · exact Or.inr ⟨r2, List.mem_cons_of_mem _ hr2, h⟩

theorem processNode_mem (lv : LabelValidation) (now : Nat → Time) (c : ReadinessGateController)
    (ticks : Nat) (node u : Node)
    (hu : u ∈ (processNode lv now c { ticks := ticks, updates := [] } node).updates) :
    ∃ r ∈ getApplicableRulesForNode lv c node, IsUpdateFor node r u := by
  rcases foldl_processRule_mem now node _ _ u hu with h | h
  · exact absurd h (List.not_mem_nil u)
  · exact h

theorem foldl_processRule_length (now : Nat → Time) (node : Node)
    (rules : List NodeReadinessRule) :
    ∀ (w : World), (rules.foldl (processRule now node) w).updates.length =
      w.updates.length + (rules.filter (needsChange node)).length := by
  induction rules with
  | nil => intro w; simp
  | cons r rs ih =>
    intro w
    rw [List.foldl_cons, ih]
    rcases processRule_cases now node w r with ⟨hs, hh, hp⟩ | ⟨hs, hh, hp⟩ | ⟨hs, hp⟩
    · have hn : needsChange node r = true := by simp [needsChange, hs, hh]
      rw [hp, addTaint_updates, List.filter_cons_of_pos hn]
      simp [Nat.add_assoc, Nat.add_comm]
    · have hn : needsChange node r = true := by simp [needsChange, hs, hh]
      rw [hp, removeTaint_updates, List.filter_cons_of_pos hn]
      simp [Nat.add_assoc, Nat.add_comm]
    · have hn : ¬ needsChange node r = true := by simp [needsChange, hs]
      rw [hp, List.filter_cons_of_neg hn]

theorem isUpdateFor_needsChange (node : Node) (r : NodeReadinessRule) (u : Node)
    (h : IsUpdateFor node r u) : needsChange node r = true := by
  rcases h with ⟨hs, hh, _⟩ | ⟨hs, hh, _⟩ <;> simp [needsChange, hs, hh]

theorem isUpdateFor_hasTaint_self (node : Node) (r : NodeReadinessRule) (u : Node)
    (h : IsUpdateFor node r u) :
    hasTaint u r.TaintKey r.TaintEffect = shouldHaveTaint node r := by
  rcases h with ⟨hs, _, t, rfl⟩ | ⟨hs, _, rfl⟩
  · rw [hasTaint_withTaints_append, hs]
    simp [taintMatches]
  · rw [hasTaint_withTaints_filter, hs]
    simp

theorem isUpdateFor_hasTaint_other (node : Node) (r : NodeReadinessRule) (u : Node)
    (k : String) (e : TaintEffect) (h : IsUpdateFor node r u)
    (hne : ¬ (r.TaintKey = k ∧ r.TaintEffect = e)) :
    hasTaint u k e = hasTaint node k e := by
  rcases h with ⟨_, _, t, rfl⟩ | ⟨_, _, rfl⟩
  · rw [hasTaint_withTaints_append]
    have : taintMatches k e
        { Key := r.TaintKey, Value := "", Effect := r.TaintEffect, TimeAdded := some t } =
        false := by
      simpa [taintMatches] using hne
    rw [this, Bool.or_false]
  · rw [hasTaint_withTaints_filter]
    unfold hasTaint
    congr 1
    funext x
    by_cases hx : taintMatches k e x = true
    · have hx2 := (taintMatches_iff k e x).1 hx
      have : taintMatches r.TaintKey r.TaintEffect x = false := by
        rw [Bool.eq_false_iff]
        intro hc
        have hc2 := (taintMatches_iff _ _ x).1 hc
        exact hne ⟨hc2.1.symm.trans hx2.1, hc2.2.symm.trans hx2.2⟩
      simp [this]
    · simp [Bool.eq_false_iff.2 hx]

theorem storeApply_pair (accept : Node → Node → Bool) (stored u1 u2 : Node) :
    storeApply accept stored [u1, u2] = u2 ∨ storeApply accept stored [u1, u2] = u1 ∨
      storeApply accept stored [u1, u2] = stored := by
  simp only [storeApply]
  split_ifs <;> simp

/-! ## Facts about the bootstrap-only state machine -/

theorem Engine.hasTaint_removeTaint (node : Node) (taint : Engine.TaintSpec) :
    hasTaint (Engine.removeTaint node taint) taint.Key taint.Effect = false := by
  unfold Engine.removeTaint
  cases h : hasTaint node taint.Key taint.Effect
  · simp [h]
  · simp [hasTaint, Node.withTaints, List.any_filter]

theorem Engine.annotations_removeTaint (node : Node) (taint : Engine.TaintSpec) :
    (Engine.removeTaint node taint).Annotations = node.Annotations := by
  unfold Engine.removeTaint
  split <;> rfl

theorem Engine.applyDesired_false (now : Time) (fs : Option Time) (node : Node)
    (rule : Engine.NodeReadinessRule) :
    Engine.applyDesired now fs node rule false = Engine.removeTaint node rule.Taint := by
  unfold Engine.applyDesired Engine.removeTaint
  cases h : hasTaint node rule.Taint.Key rule.Taint.Effect <;> simp

theorem Engine.isCompleted_congr (a b : Node) (name : String)
    (h : a.Annotations = b.Annotations) :
    Engine.isCompleted a name = Engine.isCompleted b name := by
  unfold Engine.isCompleted
  rw [h]

theorem Engine.isCompleted_markCompleted (node : Node) (name : String) :
    Engine.isCompleted (Engine.markCompleted node name) name = true := by
  unfold Engine.markCompleted
  cases h : Engine.isCompleted node name
  · simp [Engine.isCompleted, StringMap.get?, StringMap.entries, List.lookup]
  · simp [h]

theorem Engine.spec_markCompleted (node : Node) (name : String) :
    (Engine.markCompleted node name).Spec = node.Spec := by
  unfold Engine.markCompleted
  split <;> rfl

theorem Engine.reconcileRule_completed (now : Time) (fs : Option Time) (node : Node)
    (rule : Engine.NodeReadinessRule)
    (hmode : rule.EnforcementMode = Engine.EnforcementMode.bootstrapOnly)
    (hdone : Engine.isCompleted node rule.Name = true) :
    Engine.reconcileRule now fs node rule = node := by
  unfold Engine.reconcileRule
  simp [hmode, hdone]

/-- The controller of `pkg/controller` has no enforcement mode and does not read
annotations: on a node that carries the completion annotation it adds the taint as
on any other node. -/
theorem processNode_on_marked_node :
    Engine.isCompleted markedNode "test-rule" = true ∧
    (processNode lvAll clock7 testCache World.init markedNode).updates =
      [markedNode.withTaints
        [{ Key := "test-taint", Value := "", Effect := TaintEffectNoSchedule, TimeAdded := some 7 }]] := by
  decide

/-! ## Claims -/

/-- C8: `hasTaint node key effect` is true exactly when some taint of the node has
that key and that effect, and two nodes whose taint lists agree on the (key, effect)
pairs, whatever their values and timestamps, get the same answer. -/
theorem hasTaint_exact_key_effect (node : Node) (key : String) (effect : TaintEffect) :
    (hasTaint node key effect = true ↔
      ∃ t ∈ node.Spec.Taints, t.Key = key ∧ t.Effect = effect) ∧
    (∀ other : Node,
      other.Spec.Taints.map (fun t => (t.Key, t.Effect)) =
        node.Spec.Taints.map (fun t => (t.Key, t.Effect)) →
      hasTaint other key effect = hasTaint node key effect) := by
  refine ⟨hasTaint_iff node key effect, ?_⟩
  intro other h
  have hany : ∀ l : List Taint, l.any (taintMatches key effect) =
      (l.map (fun t => (t.Key, t.Effect))).any (fun p => p.1 == key && p.2 == effect) := by
    intro l
    induction l with
    | nil => rfl
    | cons t ts ih => simp [List.any_cons, taintMatches, ih]
  unfold hasTaint
  rw [hany, hany, h]

/-- Witness for C8 on the test node and a copy whose taint has another value and a
timestamp. -/
theorem hasTaint_exact_key_effect_witness :
    hasTaint testNode "test-taint" TaintEffectNoSchedule = true ∧
    hasTaint (mkNode [stampedTaint] []) "test-taint" TaintEffectNoSchedule =
      hasTaint testNode "test-taint" TaintEffectNoSchedule :=
  ⟨(hasTaint_exact_key_effect testNode "test-taint" TaintEffectNoSchedule).1.mpr
      ⟨plainTaint "test-taint" TaintEffectNoSchedule, by decide, by decide, by decide⟩,
    (hasTaint_exact_key_effect testNode "test-taint" TaintEffectNoSchedule).2 _ (by decide)⟩

/-- C10: `removeTaint` submits one copy of the node whose taint list is the
original one without the entries matching (key, effect), all other fields being
those of the node; `hasTaint` is false on the copy, removing again from the copy
submits the copy itself, and a node without a matching taint is submitted
unchanged. -/
theorem removeTaint_idempotent_filter (w : World) (node : Node) (key : String)
    (effect : TaintEffect) :
    ∃ nodeCopy : Node,
      (removeTaint w node key effect).updates = w.updates ++ [nodeCopy] ∧
      nodeCopy = node.withTaints
        (node.Spec.Taints.filter (fun t => !(decide (t.Key = key ∧ t.Effect = effect)))) ∧
      hasTaint nodeCopy key effect = false ∧
      (∀ w2 : World, (removeTaint w2 nodeCopy key effect).updates = w2.updates ++ [nodeCopy]) ∧
      (hasTaint node key effect = false → nodeCopy = node) := by
  have hfun : (fun t : Taint => !(taintMatches key effect t)) =
      (fun t => !(decide (t.Key = key ∧ t.Effect = effect))) := by
    funext t
    by_cases h1 : t.Key = key <;> by_cases h2 : t.Effect = effect <;>
      simp [taintMatches, h1, h2]
  refine ⟨node.withTaints (node.Spec.Taints.filter (fun t => !(taintMatches key effect t))),
    rfl, ?_, ?_, ?_, ?_⟩
  · rw [hfun]
  · simp [hasTaint, Node.withTaints, List.any_filter]
  · intro w2
    rw [removeTaint_updates]
    simp [Node.withTaints, List.filter_filter]
  · intro h
    have hall : ∀ t ∈ node.Spec.Taints, (!(taintMatches key effect t)) = true := by
      intro t ht
      have := (hasTaint_eq_false_iff node key effect).1 h t ht
      simp [this]
    have hf : node.Spec.Taints.filter (fun t => !(taintMatches key effect t)) =
        node.Spec.Taints := List.filter_eq_self.2 hall
    rw [hf]
    rfl

/-- Witness for C10: a node carrying the taint twice, next to a foreign taint. -/
theorem removeTaint_idempotent_filter_witness :
    ∃ nodeCopy : Node,
      (removeTaint World.init (mkNode [plainTaint "test-taint" TaintEffectNoSchedule,
          plainTaint "other" TaintEffectNoExecute, stampedTaint] [])
          "test-taint" TaintEffectNoSchedule).updates =
        World.init.updates ++ [nodeCopy] ∧
      nodeCopy.Spec.Taints = [plainTaint "other" TaintEffectNoExecute] := by
  obtain ⟨nodeCopy, h1, h2, _⟩ := removeTaint_idempotent_filter World.init
    (mkNode [plainTaint "test-taint" TaintEffectNoSchedule,
      plainTaint "other" TaintEffectNoExecute, stampedTaint] []) "test-taint" TaintEffectNoSchedule
  exact ⟨nodeCopy, h1, by rw [h2]; decide⟩

/-- C1: with a cache holding exactly one rule, which applies to the node, and a
store that takes the update of the call, the stored node after `processNode` has
the taint of the rule exactly when the condition status differs from the required
status; the conditions of the stored node are those of the input. -/
theorem processNode_single_rule_sets_taint (lv : LabelValidation) (now : Nat → Time)
    (accept : Node → Node → Bool) (ticks : Nat) (key : String) (rule : NodeReadinessRule)
    (node : Node)
    (happ : ruleAppliesTo lv rule node = true)
    (hacc : ∀ u ∈ (processNode lv now { readinessRules := [(key, rule)] }
      { ticks := ticks, updates := [] } node).updates, accept node u = true) :
    hasTaint (reconcileOnce lv now accept ticks { readinessRules := [(key, rule)] } node)
        rule.TaintKey rule.TaintEffect =
      (getConditionStatus node rule.ConditionType != rule.RequiredStatus) ∧
    getConditionStatus (reconcileOnce lv now accept ticks { readinessRules := [(key, rule)] } node)
        rule.ConditionType = getConditionStatus node rule.ConditionType := by
  have h1 : getApplicableRulesForNode lv { readinessRules := [(key, rule)] } node = [rule] := by
    simp [getApplicableRulesForNode, happ]
  obtain ⟨⟨ts, hts⟩, h⟩ := reconcileOnce_single lv now accept ticks _ node rule h1 hacc
  refine ⟨h, ?_⟩
  rw [hts]
  rfl

/-- Witness for C1: the untainted node with the condition false gets the taint, and
the tainted node with the condition true loses it. -/
theorem processNode_single_rule_sets_taint_witness :
    hasTaint (reconcileOnce lvAll clock7 acceptAll 0 testCache
        (mkNode [] [{ Type_ := "TestCondition", Status := ConditionFalse }]))
      "test-taint" TaintEffectNoSchedule = true ∧
    hasTaint (reconcileOnce lvAll clock7 acceptAll 0 testCache
        (mkNode [plainTaint "test-taint" TaintEffectNoSchedule]
          [{ Type_ := "TestCondition", Status := ConditionTrue }]))
      "test-taint" TaintEffectNoSchedule = false :=
  ⟨(processNode_single_rule_sets_taint lvAll clock7 acceptAll 0 "TestCondition" testRule
      (mkNode [] [{ Type_ := "TestCondition", Status := ConditionFalse }])
      (by decide) (fun _ _ => rfl)).1.trans (by decide),
   (processNode_single_rule_sets_taint lvAll clock7 acceptAll 0 "TestCondition" testRule
      (mkNode [plainTaint "test-taint" TaintEffectNoSchedule]
        [{ Type_ := "TestCondition", Status := ConditionTrue }])
      (by decide) (fun _ _ => rfl)).1.trans (by decide)⟩

/-- C4 (refuted as stated): on a node that reports no condition, a rule requiring
`Unknown` is satisfied: `shouldHaveTaint` is false and `processNode` submits the
node with the taint of the rule removed. -/
theorem missing_condition_required_unknown :
    (∀ cond ∈ silentNode.Status.Conditions, cond.Type_ ≠ unknownRule.ConditionType) ∧
    shouldHaveTaint silentNode unknownRule = false ∧
    (processNode lvAll clock7 { readinessRules := [("TestCondition", unknownRule)] }
      World.init silentNode).updates = [mkNode [] []] := by
  decide

/-- C4 (amended): on a node without a condition of the type of the rule, the
evaluated status is `Unknown` (a plain value, there is no error path), and
`shouldHaveTaint` is true exactly when the required status is not `Unknown`; so the
requirement counts as unsatisfied for `True` and `False`, and as satisfied for
`Unknown`. -/
theorem missing_condition_evaluates_unknown (node : Node) (rule : NodeReadinessRule)
    (hmissing : ∀ cond ∈ node.Status.Conditions, cond.Type_ ≠ rule.ConditionType) :
    getConditionStatus node rule.ConditionType = ConditionUnknown ∧
    (shouldHaveTaint node rule = true ↔ rule.RequiredStatus ≠ ConditionUnknown) ∧
    (rule.RequiredStatus = ConditionTrue ∨ rule.RequiredStatus = ConditionFalse →
      shouldHaveTaint node rule = true) := by
  have hfind : node.Status.Conditions.find? (fun cond => cond.Type_ == rule.ConditionType) =
      none := by
    rw [List.find?_eq_none]
    intro cond hc
    simpa using hmissing cond hc
  have hstatus : getConditionStatus node rule.ConditionType = ConditionUnknown := by
    simp [getConditionStatus, hfind]
  have hiff : shouldHaveTaint node rule = true ↔ rule.RequiredStatus ≠ ConditionUnknown := by
    unfold shouldHaveTaint
    rw [hstatus]
    simp only [bne_iff_ne, ne_eq]
    exact ⟨fun h h2 => h h2.symm, fun h h2 => h h2.symm⟩
  refine ⟨hstatus, hiff, ?_⟩
  rintro (h | h) <;> rw [hiff, h] <;> decide

/-- Witness for C4 (amended): the rule of the test file on a node without conditions. -/
theorem missing_condition_evaluates_unknown_witness :
    getConditionStatus silentNode "TestCondition" = ConditionUnknown ∧
    shouldHaveTaint silentNode testRule = true :=
  ⟨(missing_condition_evaluates_unknown silentNode testRule (by decide)).1,
   (missing_condition_evaluates_unknown silentNode testRule (by decide)).2.2 (Or.inl rfl)⟩

/-- C5: when no rule of the cache applies to the node, `processNode` changes nothing:
no update is submitted and the clock is not read, whatever the conditions and taints
of the node are. -/
theorem processNode_no_applicable_rule (lv : LabelValidation) (now : Nat → Time)
    (c : ReadinessGateController) (w : World) (node : Node)
    (hnone : ∀ entry ∈ c.readinessRules, ruleAppliesTo lv entry.2 node = false) :
    processNode lv now c w node = w ∧
    (processNode lv now c World.init node).updates = [] := by
  have h : getApplicableRulesForNode lv c node = [] := by
    unfold getApplicableRulesForNode
    rw [List.filter_eq_nil_iff]
    intro rule hrule
    obtain ⟨entry, hentry, rfl⟩ := List.mem_map.1 hrule
    simp [hnone entry hentry]
  simp [processNode, h, World.init]

/-- Witness for C5: selector `env=non-existent`, node labelled `env=test` that carries
the taint while the condition is satisfied; nothing is submitted. -/
theorem processNode_no_applicable_rule_witness :
    ruleAppliesTo lvAll otherEnvRule
      (mkNode [plainTaint "test-taint" TaintEffectNoSchedule]
        [{ Type_ := "TestCondition", Status := ConditionTrue }]) = false ∧
    (processNode lvAll clock7 { readinessRules := [("TestCondition", otherEnvRule)] } World.init
      (mkNode [plainTaint "test-taint" TaintEffectNoSchedule]
        [{ Type_ := "TestCondition", Status := ConditionTrue }])).updates = [] :=
  ⟨by decide,
   (processNode_no_applicable_rule lvAll clock7
      { readinessRules := [("TestCondition", otherEnvRule)] } World.init _ (by decide)).2⟩

/-- C7: with a single applicable rule and the update of the first call taken by the
store, a second call of `processNode` on the stored node submits nothing, so the
stored node, and with it the taint list, stays what the first call left. -/
theorem processNode_second_run_is_noop (lv : LabelValidation) (now now2 : Nat → Time)
    (accept accept2 : Node → Node → Bool) (ticks : Nat) (w2 : World)
    (c : ReadinessGateController) (node : Node) (rule : NodeReadinessRule)
    (happ : getApplicableRulesForNode lv c node = [rule])
    (hacc : ∀ u ∈ (processNode lv now c { ticks := ticks, updates := [] } node).updates,
      accept node u = true) :
    processNode lv now2 c w2 (reconcileOnce lv now accept ticks c node) = w2 ∧
    reconcileOnce lv now2 accept2 w2.ticks c (reconcileOnce lv now accept ticks c node) =
      reconcileOnce lv now accept ticks c node := by
  obtain ⟨⟨ts, hts⟩, h⟩ := reconcileOnce_single lv now accept ticks c node rule happ hacc
  have happ2 : getApplicableRulesForNode lv c (reconcileOnce lv now accept ticks c node) =
      [rule] := by
    rw [hts, getApplicableRulesForNode_withTaints, happ]
  have hs : shouldHaveTaint (reconcileOnce lv now accept ticks c node) rule =
      shouldHaveTaint node rule := by
    rw [hts, shouldHaveTaint_withTaints]
  have hnoop : ∀ w : World,
      processNode lv now2 c w (reconcileOnce lv now accept ticks c node) = w := by
    intro w
    rw [processNode_of_applicable_single lv now2 c w _ rule happ2]
    rcases processRule_cases now2 (reconcileOnce lv now accept ticks c node) w rule with
      ⟨h1, h2, _⟩ | ⟨h1, h2, _⟩ | ⟨_, hp⟩
    · rw [hs] at h1
      rw [h, h1] at h2
      exact absurd h2 (by decide)
    · rw [hs] at h1
      rw [h, h1] at h2
      exact absurd h2 (by decide)
    · exact hp
  refine ⟨hnoop w2, ?_⟩
  show storeApply accept2 _ (processNode lv now2 c _ _).updates = _
  rw [hnoop]
  rfl

/-- Witness for C7: the untainted test node with the condition false; the first call
adds the taint and the second call submits nothing. -/
theorem processNode_second_run_is_noop_witness :
    (reconcileOnce lvAll clock7 acceptAll 0 testCache
        (mkNode [] [{ Type_ := "TestCondition", Status := ConditionFalse }])).Spec.Taints =
      [{ Key := "test-taint", Value := "", Effect := TaintEffectNoSchedule, TimeAdded := some 7 }] ∧
    processNode lvAll clock7 testCache World.init
        (reconcileOnce lvAll clock7 acceptAll 0 testCache
          (mkNode [] [{ Type_ := "TestCondition", Status := ConditionFalse }])) = World.init :=
  ⟨by decide,
   (processNode_second_run_is_noop lvAll clock7 clock7 acceptAll acceptAll 0 World.init testCache
      (mkNode [] [{ Type_ := "TestCondition", Status := ConditionFalse }]) testRule
      (by decide) (fun _ _ => rfl)).1⟩

/-- C6: in every object that `processNode` submits, the taints of the input node
whose (key, effect) pair is managed by no cached rule are all present, unchanged
and in the same order: filtering the submitted list for unmanaged taints gives the
same list as filtering the input list, and that list is a sublist of the submitted
one. -/
theorem processNode_preserves_unmanaged_taints (lv : LabelValidation) (now : Nat → Time)
    (c : ReadinessGateController) (ticks : Nat) (node : Node) :
    ∀ u ∈ (processNode lv now c { ticks := ticks, updates := [] } node).updates,
      u.Spec.Taints.filter (fun t => !(managedBy c t)) =
        node.Spec.Taints.filter (fun t => !(managedBy c t)) ∧
      (node.Spec.Taints.filter (fun t => !(managedBy c t))).Sublist u.Spec.Taints := by
  intro u hu
  obtain ⟨r, hr, hupd⟩ := processNode_mem lv now c ticks node u hu
  have hmanaged : ∀ t : Taint, taintMatches r.TaintKey r.TaintEffect t = true →
      managedBy c t = true := by
    intro t ht
    obtain ⟨entry, hentry, rfl⟩ := List.mem_map.1 (List.mem_filter.1 hr).1
    exact List.any_eq_true.2 ⟨entry, hentry, ht⟩
  have hfilter : u.Spec.Taints.filter (fun t => !(managedBy c t)) =
      node.Spec.Taints.filter (fun t => !(managedBy c t)) := by
    rcases hupd with ⟨_, _, t, rfl⟩ | ⟨_, _, rfl⟩
    · have hnew : managedBy c
          { Key := r.TaintKey, Value := "", Effect := r.TaintEffect, TimeAdded := some t } =
          true := hmanaged _ (by simp [taintMatches])
      simp [Node.withTaints, List.filter_append, hnew]
    · simp only [Node.withTaints, List.filter_filter]
      apply List.filter_congr
      intro x _
      cases hm : taintMatches r.TaintKey r.TaintEffect x
      · simp
      · simp [hmanaged x hm]
  refine ⟨hfilter, ?_⟩
  rw [← hfilter]
  exact List.filter_sublist _

/-- Witness for C6: the update that removes `test-taint` from `mixedNode` keeps both
foreign taints, with value and timestamp, in their order. -/
theorem processNode_preserves_unmanaged_taints_witness :
    (processNode lvAll clock7 testCache World.init mixedNode).updates =
      [mkNode [foreignTaint, plainTaint "other" TaintEffectNoSchedule]
        [{ Type_ := "TestCondition", Status := ConditionTrue }]] ∧
    [foreignTaint, plainTaint "other" TaintEffectNoSchedule].Sublist
      (mkNode [foreignTaint, plainTaint "other" TaintEffectNoSchedule]
        [{ Type_ := "TestCondition", Status := ConditionTrue }]).Spec.Taints :=
  ⟨by decide,
   (processNode_preserves_unmanaged_taints lvAll clock7 testCache 0 mixedNode
      (mkNode [foreignTaint, plainTaint "other" TaintEffectNoSchedule]
        [{ Type_ := "TestCondition", Status := ConditionTrue }]) (by decide)).2⟩

/-- C9 (refuted as stated): on the test node, which carries `test-taint`, `addTaint`
submits a list with a second `test-taint` entry, not the original list. -/
theorem addTaint_on_tainted_node_appends :
    hasTaint testNode "test-taint" TaintEffectNoSchedule = true ∧
    (addTaint clock7 World.init testNode "test-taint" TaintEffectNoSchedule).updates =
      [testNode.withTaints [plainTaint "test-taint" TaintEffectNoSchedule,
        { Key := "test-taint", Value := "", Effect := TaintEffectNoSchedule, TimeAdded := some 7 }]] ∧
    (addTaint clock7 World.init testNode "test-taint" TaintEffectNoSchedule).updates ≠
      [testNode] := by
  decide

/-- C9 (amended): `addTaint` always appends: on a node that already carries a taint
with the (key, effect) pair it submits the original list followed by one more such
taint. The no-op comes from the caller: `processNode` reaches `addTaint` only when
`hasTaint` is false, so no object it submits for such a node holds more taints with
that pair than the node did. -/
theorem addTaint_appends_processNode_guards (lv : LabelValidation) (now : Nat → Time)
    (c : ReadinessGateController) (w : World) (ticks : Nat) (node : Node) (key : String)
    (effect : TaintEffect) (hhas : hasTaint node key effect = true) :
    (addTaint now w node key effect).updates = w.updates ++ [node.withTaints (node.Spec.Taints ++
      [{ Key := key, Value := "", Effect := effect, TimeAdded := some (now w.ticks) }])] ∧
    (∀ u ∈ (addTaint now w node key effect).updates, u ∉ w.updates →
      (u.Spec.Taints.filter (taintMatches key effect)).length =
        (node.Spec.Taints.filter (taintMatches key effect)).length + 1) ∧
    (∀ u ∈ (processNode lv now c { ticks := ticks, updates := [] } node).updates,
      (u.Spec.Taints.filter (taintMatches key effect)).length ≤
        (node.Spec.Taints.filter (taintMatches key effect)).length) := by
  refine ⟨rfl, ?_, ?_⟩
  · intro u hu hnew
    rw [addTaint_updates] at hu
    rcases List.mem_append.1 hu with h | h
    · exact absurd h hnew
    · rw [List.mem_singleton.1 h]
      simp [Node.withTaints, List.filter_append, taintMatches]
  · intro u hu
    obtain ⟨r, _, hupd⟩ := processNode_mem lv now c ticks node u hu
    rcases hupd with ⟨_, hh, t, rfl⟩ | ⟨_, _, rfl⟩
    · have hne : ¬ (r.TaintKey = key ∧ r.TaintEffect = effect) := by
        rintro ⟨rfl, rfl⟩
        rw [hh] at hhas
        exact absurd hhas (by decide)
      have hnew : taintMatches key effect
          { Key := r.TaintKey, Value := "", Effect := r.TaintEffect, TimeAdded := some t } =
          false := by
        simpa [taintMatches] using hne
      simp [Node.withTaints, List.filter_append, hnew]
    · simp only [Node.withTaints]
      rw [List.filter_comm]
      exact List.length_filter_le _ _

/-- Witness for C9 (amended): `processNode` on the test node, tainted while the taint
is due, submits nothing, while `addTaint` itself would append. -/
theorem addTaint_appends_processNode_guards_witness :
    (addTaint clock7 World.init testNode "test-taint" TaintEffectNoSchedule).updates =
      World.init.updates ++ [testNode.withTaints (testNode.Spec.Taints ++
        [{ Key := "test-taint", Value := "", Effect := TaintEffectNoSchedule,
           TimeAdded := some (clock7 World.init.ticks) }])] ∧
    (processNode lvAll clock7 testCache World.init testNode).updates = [] :=
  ⟨(addTaint_appends_processNode_guards lvAll clock7 testCache World.init 0 testNode
      "test-taint" TaintEffectNoSchedule (by decide)).1, by decide⟩

/-- C2 (refuted as stated): two rules with distinct taints both apply to a node
without taints and both need their taint added. `processNode` submits two objects,
each the input node with a single taint appended; whatever the store does with
them, the stored node misses the taint of one of the rules. -/
theorem processNode_two_changes_not_committed :
    distinctTaints twoRuleCache ∧
    getApplicableRulesForNode lvAll twoRuleCache bareNode = [ruleA, ruleB] ∧
    (processNode lvAll clock7 twoRuleCache World.init bareNode).updates =
      [bareNodeWithA, bareNodeWithB] ∧
    ¬ ∃ accept : Node → Node → Bool,
      ∀ R ∈ getApplicableRulesForNode lvAll twoRuleCache bareNode,
        hasTaint (reconcileOnce lvAll clock7 accept 0 twoRuleCache bareNode)
            R.TaintKey R.TaintEffect =
          (getConditionStatus bareNode R.ConditionType != R.RequiredStatus) := by
  have hu : (processNode lvAll clock7 twoRuleCache { ticks := 0, updates := [] } bareNode).updates =
      [bareNodeWithA, bareNodeWithB] := by
    decide
  refine ⟨by unfold distinctTaints; decide, by decide, hu, ?_⟩
  rintro ⟨accept, h⟩
  have hA := h ruleA (by decide)
  have hB := h ruleB (by decide)
  have hstored : reconcileOnce lvAll clock7 accept 0 twoRuleCache bareNode =
      storeApply accept bareNode [bareNodeWithA, bareNodeWithB] := by
    unfold reconcileOnce
    rw [hu]
  rw [hstored] at hA hB
  rcases storeApply_pair accept bareNode bareNodeWithA bareNodeWithB with hc | hc | hc
  · rw [hc] at hA
    exact absurd hA (by decide)
  · rw [hc] at hB
    exact absurd hB (by decide)
  · rw [hc] at hA
    exact absurd hA (by decide)

/-- The objects of one call of `processNode` are, in order, one per applicable rule
that needs a change, each the unmodified node with the taint of that rule added or
removed. -/
theorem foldl_processRule_forall₂ (now : Nat → Time) (node : Node)
    (rules : List NodeReadinessRule) :
    ∀ (w : World), ∃ us : List Node,
      (rules.foldl (processRule now node) w).updates = w.updates ++ us ∧
      List.Forall₂ (IsUpdateFor node) (rules.filter (needsChange node)) us := by
  induction rules with
  | nil =>
    intro w
    exact ⟨[], by simp, List.Forall₂.nil⟩
  | cons r rs ih =>
    intro w
    rw [List.foldl_cons]
    obtain ⟨us, hus, hall⟩ := ih (processRule now node w r)
    rcases processRule_cases now node w r with ⟨hs, hh, hp⟩ | ⟨hs, hh, hp⟩ | ⟨hs, hp⟩
    · have hn : needsChange node r = true := by simp [needsChange, hs, hh]
      rw [hp, addTaint_updates] at hus
      refine ⟨node.withTaints (node.Spec.Taints ++
        [⟨r.TaintKey, "", r.TaintEffect, some (now w.ticks)⟩]) :: us, ?_, ?_⟩
      · rw [hp, hus, List.append_assoc]
        rfl
      · rw [List.filter_cons_of_pos hn]
        exact List.Forall₂.cons (Or.inl ⟨hs, hh, now w.ticks, rfl⟩) hall
    · have hn : needsChange node r = true := by simp [needsChange, hs, hh]
      rw [hp, removeTaint_updates] at hus
      refine ⟨node.withTaints (node.Spec.Taints.filter
        (fun t => !(taintMatches r.TaintKey r.TaintEffect t))) :: us, ?_, ?_⟩
      · rw [hp, hus, List.append_assoc]
        rfl
      · rw [List.filter_cons_of_pos hn]
        exact List.Forall₂.cons (Or.inr ⟨hs, hh, rfl⟩) hall
    · have hn : ¬ needsChange node r = true := by simp [needsChange, hs]
      rw [hp] at hus
      refine ⟨us, ?_, ?_⟩
      · rw [hp, hus]
      · rw [List.filter_cons_of_neg hn]
        exact hall

theorem processNode_forall₂ (lv : LabelValidation) (now : Nat → Time)
    (c : ReadinessGateController) (ticks : Nat) (node : Node) :
    List.Forall₂ (IsUpdateFor node)
      ((getApplicableRulesForNode lv c node).filter (needsChange node))
      (processNode lv now c { ticks := ticks, updates := [] } node).updates := by
  obtain ⟨us, hus, hall⟩ := foldl_processRule_forall₂ now node
    (getApplicableRulesForNode lv c node) { ticks := ticks, updates := [] }
  unfold processNode
  rw [hus]
  exact hall

theorem processNode_updates_length (lv : LabelValidation) (now : Nat → Time)
    (c : ReadinessGateController) (ticks : Nat) (node : Node) :
    (processNode lv now c { ticks := ticks, updates := [] } node).updates.length =
      ((getApplicableRulesForNode lv c node).filter (needsChange node)).length := by
  unfold processNode
  rw [foldl_processRule_length]
  simp

/-- With pairwise distinct taints, at most one object submitted and that object
taken by the store, the stored node has the taint of every applicable rule exactly
when the rule asks for it. -/
theorem reconcileOnce_one_change (lv : LabelValidation) (now : Nat → Time)
    (accept : Node → Node → Bool) (ticks : Nat) (c : ReadinessGateController) (node : Node)
    (hdistinct : distinctTaints c)
    (hone : (processNode lv now c { ticks := ticks, updates := [] } node).updates.length ≤ 1)
    (hacc : ∀ u ∈ (processNode lv now c { ticks := ticks, updates := [] } node).updates,
      accept node u = true) :
    ∀ R ∈ getApplicableRulesForNode lv c node,
      hasTaint (reconcileOnce lv now accept ticks c node) R.TaintKey R.TaintEffect =
        (getConditionStatus node R.ConditionType != R.RequiredStatus) := by
  have hlen := processNode_updates_length lv now c ticks node
  intro R hR
  have hRc : R ∈ c.readinessRules.map Prod.snd := (List.mem_filter.1 hR).1
  show hasTaint (reconcileOnce lv now accept ticks c node) R.TaintKey R.TaintEffect =
    shouldHaveTaint node R
  unfold reconcileOnce
  match hupd : (processNode lv now c { ticks := ticks, updates := [] } node).updates with
  | [] =>
    have hnil : (getApplicableRulesForNode lv c node).filter (needsChange node) = [] := by
      rw [hupd] at hlen
      exact List.length_eq_zero.1 hlen.symm
    have hR2 : needsChange node R = false := by
      cases hn : needsChange node R
      · rfl
      · have : R ∈ (getApplicableRulesForNode lv c node).filter (needsChange node) :=
          List.mem_filter.2 ⟨hR, hn⟩
        rw [hnil] at this
        exact absurd this (List.not_mem_nil R)
    simp only [storeApply]
    have hR3 : shouldHaveTaint node R = hasTaint node R.TaintKey R.TaintEffect := by
      simpa [needsChange] using hR2
    exact hR3.symm
  | [u] =>
    have hu : u ∈ (processNode lv now c { ticks := ticks, updates := [] } node).updates := by
      rw [hupd]
      exact List.mem_singleton_self u
    have ha : accept node u = true := hacc u hu
    obtain ⟨r0, hr0, hfor⟩ := processNode_mem lv now c ticks node u hu
    have hr0c : r0 ∈ c.readinessRules.map Prod.snd := (List.mem_filter.1 hr0).1
    simp only [storeApply, ha, if_true]
    by_cases hpair : r0.TaintKey = R.TaintKey ∧ r0.TaintEffect = R.TaintEffect
    · have hinj := List.inj_on_of_nodup_map
        (show ((c.readinessRules.map Prod.snd).map
          (fun r : NodeReadinessRule => (r.TaintKey, r.TaintEffect))).Nodup by
          simpa [distinctTaints, List.map_map, Function.comp_def] using hdistinct)
      have hreq : r0 = R := hinj hr0c hRc (by simp [hpair.1, hpair.2])
      rw [← hreq]
      exact isUpdateFor_hasTaint_self node r0 u hfor
    · rw [isUpdateFor_hasTaint_other node r0 u R.TaintKey R.TaintEffect hfor hpair]
      have hfilter : (getApplicableRulesForNode lv c node).filter (needsChange node) = [r0] := by
        have h1 : ((getApplicableRulesForNode lv c node).filter (needsChange node)).length = 1 := by
          rw [← hlen, hupd]
          rfl
        obtain ⟨x, hx⟩ := List.length_eq_one.1 h1
        have hmem : r0 ∈ (getApplicableRulesForNode lv c node).filter (needsChange node) :=
          List.mem_filter.2 ⟨hr0, isUpdateFor_needsChange node r0 u hfor⟩
        rw [hx] at hmem ⊢
        rw [List.mem_singleton.1 hmem]
      have hR2 : needsChange node R = false := by
        cases hn : needsChange node R
        · rfl
        · have : R ∈ (getApplicableRulesForNode lv c node).filter (needsChange node) :=
            List.mem_filter.2 ⟨hR, hn⟩
          rw [hfilter] at this
          have hRr0 : R = r0 := List.mem_singleton.1 this
          exact absurd ⟨by rw [hRr0], by rw [hRr0]⟩ hpair
      have hR3 : shouldHaveTaint node R = hasTaint node R.TaintKey R.TaintEffect := by
        simpa [needsChange] using hR2
      exact hR3.symm
  | u1 :: u2 :: rest =>
    rw [hupd] at hone
    simp at hone

/-- C2 (amended): the objects `processNode` submits in one call are, in the order of
the applicable rules, exactly one per applicable rule that needs a change, each the
unmodified input node with only the taint of that rule added or removed; this
holds for every node and cache. When, in addition, the taints of the rules are
pairwise distinct, at most one object is submitted and the store takes it, the
stored node after the call has the taint of every applicable rule exactly when its
condition status differs from the required status. -/
theorem processNode_converges_with_one_change (lv : LabelValidation) (now : Nat → Time)
    (accept : Node → Node → Bool) (ticks : Nat) (c : ReadinessGateController) (node : Node) :
    List.Forall₂ (IsUpdateFor node)
      ((getApplicableRulesForNode lv c node).filter (needsChange node))
      (processNode lv now c { ticks := ticks, updates := [] } node).updates ∧
    (∀ u ∈ (processNode lv now c { ticks := ticks, updates := [] } node).updates,
      ∃ r ∈ getApplicableRulesForNode lv c node, IsUpdateFor node r u) ∧
    (processNode lv now c { ticks := ticks, updates := [] } node).updates.length =
      ((getApplicableRulesForNode lv c node).filter (needsChange node)).length ∧
    (distinctTaints c →
      (processNode lv now c { ticks := ticks, updates := [] } node).updates.length ≤ 1 →
      (∀ u ∈ (processNode lv now c { ticks := ticks, updates := [] } node).updates,
        accept node u = true) →
      ∀ R ∈ getApplicableRulesForNode lv c node,
        hasTaint (reconcileOnce lv now accept ticks c node) R.TaintKey R.TaintEffect =
          (getConditionStatus node R.ConditionType != R.RequiredStatus)) :=
  ⟨processNode_forall₂ lv now c ticks node,
   fun u hu => processNode_mem lv now c ticks node u hu,
   processNode_updates_length lv now c ticks node,
   fun hdistinct hone hacc => reconcileOnce_one_change lv now accept ticks c node hdistinct hone hacc⟩

/-- Witness for C2 (amended): on a node that already carries taint `b`, only `ruleA`
needs a change; after the call the stored node carries both taints. -/
theorem processNode_converges_with_one_change_witness :
    hasTaint (reconcileOnce lvAll clock7 acceptAll 0 twoRuleCache
        (mkNode [plainTaint "b" TaintEffectNoSchedule] [])) "a" TaintEffectNoSchedule = true ∧
    hasTaint (reconcileOnce lvAll clock7 acceptAll 0 twoRuleCache
        (mkNode [plainTaint "b" TaintEffectNoSchedule] [])) "b" TaintEffectNoSchedule = true :=
  ⟨((processNode_converges_with_one_change lvAll clock7 acceptAll 0 twoRuleCache
      (mkNode [plainTaint "b" TaintEffectNoSchedule] [])).2.2.2 (by unfold distinctTaints; decide)
      (by decide) (fun _ _ => rfl) ruleA (by decide)).trans (by decide),
   ((processNode_converges_with_one_change lvAll clock7 acceptAll 0 twoRuleCache
      (mkNode [plainTaint "b" TaintEffectNoSchedule] [])).2.2.2 (by unfold distinctTaints; decide)
      (by decide) (fun _ _ => rfl) ruleB (by decide)).trans (by decide)⟩

/-- C3: for a bootstrap-only rule that is not a dry run, a reconciliation of a node
without completion marker whose conditions are satisfied leaves the node without
the taint of the rule and with the marker set; a later reconciliation of a node with
those annotations and taints, whatever its conditions have become, changes nothing,
so the taint is not added back and the marker stays. -/
theorem bootstrapOnly_never_retaints (now1 now2 : Time) (fs1 fs2 : Option Time)
    (node later : Node) (rule : Engine.NodeReadinessRule)
    (hmode : rule.EnforcementMode = Engine.EnforcementMode.bootstrapOnly)
    (hdry : rule.DryRun = false)
    (hfresh : Engine.isCompleted node rule.Name = false)
    (hsat : Engine.allConditionsSatisfied node rule = true)
    (hann : later.Annotations = (Engine.reconcileRule now1 fs1 node rule).Annotations)
    (htaints : later.Spec.Taints = (Engine.reconcileRule now1 fs1 node rule).Spec.Taints) :
    Engine.isCompleted (Engine.reconcileRule now1 fs1 node rule) rule.Name = true ∧
    hasTaint (Engine.reconcileRule now1 fs1 node rule) rule.Taint.Key rule.Taint.Effect = false ∧
    Engine.reconcileRule now2 fs2 later rule = later ∧
    hasTaint (Engine.reconcileRule now2 fs2 later rule) rule.Taint.Key rule.Taint.Effect = false ∧
    Engine.isCompleted (Engine.reconcileRule now2 fs2 later rule) rule.Name = true := by
  have hfirst : Engine.reconcileRule now1 fs1 node rule =
      Engine.markCompleted (Engine.removeTaint node rule.Taint) rule.Name := by
    unfold Engine.reconcileRule
    simp [hdry, hmode, hfresh, hsat, Engine.applyDesired_false]
  have hmark : Engine.isCompleted (Engine.reconcileRule now1 fs1 node rule) rule.Name = true := by
    rw [hfirst]
    exact Engine.isCompleted_markCompleted _ _
  have hclean : hasTaint (Engine.reconcileRule now1 fs1 node rule) rule.Taint.Key
      rule.Taint.Effect = false := by
    rw [hfirst]
    unfold hasTaint
    rw [Engine.spec_markCompleted]
    exact Engine.hasTaint_removeTaint node rule.Taint
  have hlater : Engine.isCompleted later rule.Name = true := by
    rw [Engine.isCompleted_congr later _ rule.Name hann]
    exact hmark
  have hnoop : Engine.reconcileRule now2 fs2 later rule = later :=
    Engine.reconcileRule_completed now2 fs2 later rule hmode hlater
  have hlaterTaint : hasTaint later rule.Taint.Key rule.Taint.Effect = false := by
    unfold hasTaint at hclean ⊢
    rw [htaints]
    exact hclean
  refine ⟨hmark, hclean, hnoop, ?_, ?_⟩
  · rw [hnoop]
    exact hlaterTaint
  · rw [hnoop]
    exact hlater

/-- Witness for C3: the scenario of the test file. The tainted node with the
condition true is reconciled, then the condition regresses to false and the node is
reconciled again: the taint stays absent. -/
theorem bootstrapOnly_never_retaints_witness :
    hasTaint (Engine.reconcileRule 9 none
        { Engine.reconcileRule 5 none
            (mkNode [plainTaint "test-taint" TaintEffectNoSchedule]
              [{ Type_ := "TestCondition", Status := ConditionTrue }]) Engine.bootstrapRule with
          Status := { Conditions := [{ Type_ := "TestCondition", Status := ConditionFalse }] } }
        Engine.bootstrapRule) "test-taint" TaintEffectNoSchedule = false :=
  (bootstrapOnly_never_retaints 5 9 none none
    (mkNode [plainTaint "test-taint" TaintEffectNoSchedule]
      [{ Type_ := "TestCondition", Status := ConditionTrue }])
    { Engine.reconcileRule 5 none
        (mkNode [plainTaint "test-taint" TaintEffectNoSchedule]
          [{ Type_ := "TestCondition", Status := ConditionTrue }]) Engine.bootstrapRule with
      Status := { Conditions := [{ Type_ := "TestCondition", Status := ConditionFalse }] } }
    Engine.bootstrapRule rfl rfl (by decide) (by decide) rfl rfl).2.2.2.1

/-! ## Facts about selectors -/

theorem newRequirements_of_valid (lv : LabelValidation) (l : List (String × String))
    (h : ∀ e ∈ l, lv.validateLabelKey e.1 = true ∧ lv.validateLabelValue e.2 = true) :
    newRequirements lv l = some (l.map (fun e => { key := e.1, value := e.2 })) := by
  induction l with
  | nil => rfl
  | cons e rest ih =>
    obtain ⟨k, v⟩ := e
    have he := h (k, v) (List.mem_cons_self _ _)
    have hrest := ih (fun x hx => h x (List.mem_cons_of_mem _ hx))
    simp only [newRequirements, he.1, he.2, Bool.and_self, if_true, hrest, Option.map_some',
      List.map_cons]

theorem newRequirements_of_invalid (lv : LabelValidation) (l : List (String × String))
    (h : ∃ e ∈ l, (lv.validateLabelKey e.1 && lv.validateLabelValue e.2) = false) :
    newRequirements lv l = none := by
  induction l with
  | nil =>
    obtain ⟨e, he, _⟩ := h
    exact absurd he (List.not_mem_nil e)
  | cons x rest ih =>
    obtain ⟨k, v⟩ := x
    by_cases hx : (lv.validateLabelKey k && lv.validateLabelValue v) = true
    · obtain ⟨e, he, hbad⟩ := h
      rcases List.mem_cons.1 he with rfl | hmem
      · rw [hx] at hbad
        exact absurd hbad (by decide)
      · simp only [newRequirements, hx, if_true, ih ⟨e, hmem, hbad⟩, Option.map_none']
    · simp only [newRequirements, hx]
      rfl

theorem ruleAppliesTo_of_rejected (lv : LabelValidation) (rule : NodeReadinessRule)
    (node : Node) (hne : rule.NodeSelector.len ≠ 0)
    (hrej : LabelSelectorAsSelector lv rule.NodeSelector = none) :
    ruleAppliesTo lv rule node = false := by
  unfold ruleAppliesTo
  simp [hne, hrej]

theorem applicable_without_inapplicable (lv : LabelValidation) (rule : NodeReadinessRule)
    (node : Node) (hfalse : ruleAppliesTo lv rule node = false)
    (l : List (String × NodeReadinessRule)) :
    (l.map Prod.snd).filter (fun r => ruleAppliesTo lv r node) =
      ((l.filter (fun entry => decide (entry.2 ≠ rule))).map Prod.snd).filter
        (fun r => ruleAppliesTo lv r node) := by
  induction l with
  | nil => rfl
  | cons e rest ih =>
    by_cases he : e.2 = rule
    · have h1 : decide (e.2 ≠ rule) = false := by simp [he]
      rw [List.filter_cons, h1, List.map_cons, List.filter_cons, he, hfalse]
      simpa using ih
    · have h1 : decide (e.2 ≠ rule) = true := by simp [he]
      rw [List.filter_cons, h1]
      simp only [if_true, List.map_cons, List.filter_cons]
      rw [ih]

/-- C11: a rule whose selector is the nil map or a map without entries applies to
every node, whatever its labels are, the nil map included. -/
theorem ruleAppliesTo_empty_selector (lv : LabelValidation) (rule : NodeReadinessRule)
    (node : Node) (hsel : rule.NodeSelector = none ∨ rule.NodeSelector = some []) :
    ruleAppliesTo lv rule node = true := by
  unfold ruleAppliesTo
  rcases hsel with h | h <;> simp [h, StringMap.len, StringMap.entries]

/-- Witness for C11: the nil selector on a node without labels, and the empty
selector on the test node. -/
theorem ruleAppliesTo_empty_selector_witness :
    ruleAppliesTo lvStrict nilSelectorRule unlabelledNode = true ∧
    ruleAppliesTo lvStrict emptySelectorRule testNode = true :=
  ⟨ruleAppliesTo_empty_selector lvStrict nilSelectorRule unlabelledNode (Or.inl rfl),
   ruleAppliesTo_empty_selector lvStrict emptySelectorRule testNode (Or.inr rfl)⟩

/-- C12: for a rule whose selector is non-empty and passes the validation of keys
and values, `ruleAppliesTo` is true exactly when the labels of the node hold every
entry of the selector with that value; a node whose labels agree with those of
another node on the keys of the selector gets the same answer, whatever other
labels it has. -/
theorem ruleAppliesTo_conjunctive_match (lv : LabelValidation) (rule : NodeReadinessRule)
    (node : Node) (hne : rule.NodeSelector.len ≠ 0)
    (hvalid : ∀ e ∈ rule.NodeSelector.entries,
      lv.validateLabelKey e.1 = true ∧ lv.validateLabelValue e.2 = true) :
    (ruleAppliesTo lv rule node = true ↔
      ∀ e ∈ rule.NodeSelector.entries, node.Labels.get? e.1 = some e.2) ∧
    (∀ other : Node,
      (∀ e ∈ rule.NodeSelector.entries, other.Labels.get? e.1 = node.Labels.get? e.1) →
      ruleAppliesTo lv rule other = ruleAppliesTo lv rule node) := by
  have hiff : ∀ n : Node, ruleAppliesTo lv rule n = true ↔
      ∀ e ∈ rule.NodeSelector.entries, n.Labels.get? e.1 = some e.2 := by
    intro n
    unfold ruleAppliesTo
    simp only [beq_iff_eq, hne, if_false, LabelSelectorAsSelector,
      newRequirements_of_valid lv _ hvalid, selectorMatches, List.all_eq_true, List.mem_map,
      forall_exists_index, and_imp]
    constructor
    · intro h e he
      have := h _ e he rfl
      unfold Requirement.Matches at this
      cases hget : n.Labels.get? e.1 with
      | none => simp [hget] at this
      | some v =>
        simp only [hget, beq_iff_eq] at this
        rw [this]
    · intro h r e he hr
      subst hr
      unfold Requirement.Matches
      simp [h e he]
  refine ⟨hiff node, ?_⟩
  intro other hsame
  rw [Bool.eq_iff_iff, hiff other, hiff node]
  constructor
  · intro h e he
    rw [← hsame e he]
    exact h e he
  · intro h e he
    rw [hsame e he]
    exact h e he

/-- Witness for C12: the selector `env=test` matches the test node, also with an
extra label in front, and does not match a node labelled otherwise. -/
theorem ruleAppliesTo_conjunctive_match_witness :
    ruleAppliesTo lvStrict testRule testNode = true ∧
    ruleAppliesTo lvStrict testRule twoLabelNode = ruleAppliesTo lvStrict testRule testNode ∧
    ruleAppliesTo lvStrict otherEnvRule testNode = false :=
  ⟨(ruleAppliesTo_conjunctive_match lvStrict testRule testNode (by decide) (by decide)).1.mpr
      (by decide),
   (ruleAppliesTo_conjunctive_match lvStrict testRule testNode (by decide) (by decide)).2
      twoLabelNode (by decide),
   by decide⟩

/-- C13: a rule whose non-empty selector is rejected by the construction of the
selector applies to no node; it is never among the applicable rules, so
`processNode` behaves as if the rule were not in the cache, and with only that rule
in the cache it submits nothing. `processNode` is a total function: there is no
failure path. -/
theorem malformed_selector_inapplicable (lv : LabelValidation) (now : Nat → Time)
    (c : ReadinessGateController) (w : World) (rule : NodeReadinessRule)
    (hne : rule.NodeSelector.len ≠ 0)
    (hrej : LabelSelectorAsSelector lv rule.NodeSelector = none) :
    (∀ node : Node, ruleAppliesTo lv rule node = false) ∧
    (∀ node : Node, rule ∉ getApplicableRulesForNode lv c node) ∧
    (∀ node : Node, processNode lv now c w node =
      processNode lv now
        { readinessRules := c.readinessRules.filter (fun entry => decide (entry.2 ≠ rule)) }
        w node) ∧
    (∀ (key : String) (node : Node),
      processNode lv now { readinessRules := [(key, rule)] } w node = w) := by
  have hfalse : ∀ node : Node, ruleAppliesTo lv rule node = false :=
    fun node => ruleAppliesTo_of_rejected lv rule node hne hrej
  refine ⟨hfalse, ?_, ?_, ?_⟩
  · intro node hmem
    have := (List.mem_filter.1 hmem).2
    rw [hfalse node] at this
    exact absurd this (by decide)
  · intro node
    unfold processNode getApplicableRulesForNode
    congr 1
    exact applicable_without_inapplicable lv rule node (hfalse node) c.readinessRules
  · intro key node
    simp [processNode, getApplicableRulesForNode, hfalse node]

/-- Witness for C13: under a validation that rejects empty keys, the rule with the
selector entry of empty key is rejected, applies nowhere, and leaves the world
untouched. -/
theorem malformed_selector_inapplicable_witness :
    ruleAppliesTo lvStrict malformedRule testNode = false ∧
    processNode lvStrict clock7 { readinessRules := [("TestCondition", malformedRule)] }
      World.init testNode = World.init :=
  ⟨(malformed_selector_inapplicable lvStrict clock7 testCache World.init malformedRule
      (by decide) (by decide)).1 testNode,
   (malformed_selector_inapplicable lvStrict clock7 testCache World.init malformedRule
      (by decide) (by decide)).2.2.2 "TestCondition" testNode⟩

/-- C14 (refuted as stated): on a node that reports `Ready` first as true and then as
false, `getConditionStatus` returns `True`, the status of the first entry, while the
last entry of that type says `False`. -/
theorem getConditionStatus_duplicate_returns_first :
    (dupNode.Status.Conditions.filter (fun cond => cond.Type_ == "Ready")).getLast? =
      some { Type_ := "Ready", Status := ConditionFalse } ∧
    getConditionStatus dupNode "Ready" = ConditionTrue ∧
    getConditionStatus dupNode "Ready" ≠ ConditionFalse := by
  decide

/-- C14 (amended): the condition list is read first-match-wins: when the list holds
an entry of the type, `getConditionStatus` returns the status of the first such
entry, whatever entries of that type follow; it is a total function and does not
fail. -/
theorem getConditionStatus_first_match (node : Node) (conditionType : String)
    (before after : List NodeCondition) (cond : NodeCondition)
    (hsplit : node.Status.Conditions = before ++ cond :: after)
    (htype : cond.Type_ = conditionType)
    (hbefore : ∀ d ∈ before, d.Type_ ≠ conditionType) :
    getConditionStatus node conditionType = cond.Status := by
  have hfind : ∀ l : List NodeCondition, (∀ d ∈ l, d.Type_ ≠ conditionType) →
      (l ++ cond :: after).find? (fun c => c.Type_ == conditionType) = some cond := by
    intro l
    induction l with
    | nil =>
      intro _
      simp [List.find?, htype]
    | cons d ds ih =>
      intro h
      have hd : (d.Type_ == conditionType) = false := by
        simpa using h d (List.mem_cons_self _ _)
      rw [List.cons_append, List.find?_cons, hd]
      exact ih (fun x hx => h x (List.mem_cons_of_mem _ hx))
  unfold getConditionStatus
  rw [hsplit, hfind before hbefore]

/-- Witness for C14 (amended): the node that reports `Ready` twice. -/
theorem getConditionStatus_first_match_witness :
    getConditionStatus dupNode "Ready" = ConditionTrue :=
  getConditionStatus_first_match dupNode "Ready" []
    [{ Type_ := "Ready", Status := ConditionFalse }]
    { Type_ := "Ready", Status := ConditionTrue } rfl rfl (by decide)

/-- C16 (the code at the failing input): the three handlers return normally on a
node, and `handleNodeDelete` panics in its type assertion on every
`cache.DeletedFinalStateUnknown` tombstone, also one that wraps a node. -/
theorem handleNodeDelete_tombstone_panics :
    (∀ (lv : LabelValidation) (now : Nat → Time) (c : ReadinessGateController) (w : World)
        (n : Node),
      handleNodeAdd lv now c w (Object.node n) = Except.ok (processNode lv now c w n)) ∧
    (∀ (lv : LabelValidation) (now : Nat → Time) (c : ReadinessGateController) (w : World)
        (old : Object) (n : Node),
      handleNodeUpdate lv now c w old (Object.node n) = Except.ok (processNode lv now c w n)) ∧
    (∀ (w : World) (n : Node), handleNodeDelete w (Object.node n) = Except.ok w) ∧
    (∀ (w : World) (key : String) (obj : Object),
      handleNodeDelete w (Object.deletedFinalStateUnknown key obj) =
        Except.error Panic.interfaceConversion) ∧
    handleNodeDelete World.init (Object.deletedFinalStateUnknown "test-node" (Object.node testNode)) =
      Except.error Panic.interfaceConversion :=
  ⟨fun _ _ _ _ _ => rfl, fun _ _ _ _ _ _ => rfl, fun _ _ => rfl, fun _ _ _ => rfl, rfl⟩

/-! ## Facts about (key, effect) pairs -/

theorem hasTaint_eq_false_iff_not_mem_pairs (node : Node) (k : String) (e : TaintEffect) :
    hasTaint node k e = false ↔ (k, e) ∉ taintPairs node.Spec.Taints := by
  rw [hasTaint_eq_false_iff]
  unfold taintPairs
  constructor
  · intro h hmem
    obtain ⟨t, ht, hpair⟩ := List.mem_map.1 hmem
    have hkey : t.Key = k := congrArg Prod.fst hpair
    have heff : t.Effect = e := congrArg Prod.snd hpair
    have := h t ht
    simp [taintMatches, hkey, heff] at this
  · intro h t ht
    rw [Bool.eq_false_iff]
    intro hm
    obtain ⟨hkey, heff⟩ := (taintMatches_iff k e t).1 hm
    exact h (List.mem_map.2 ⟨t, ht, by rw [hkey, heff]⟩)

/-- C17: when the taint list of the node has at most one entry per (key, effect)
pair, so has the taint list of every object that `processNode` submits, for every
rule cache: a taint is appended only when `hasTaint` is false for its pair, and a
removal only drops entries. -/
theorem processNode_no_duplicate_taint (lv : LabelValidation) (now : Nat → Time)
    (c : ReadinessGateController) (ticks : Nat) (node : Node)
    (hnodup : (taintPairs node.Spec.Taints).Nodup) :
    ∀ u ∈ (processNode lv now c { ticks := ticks, updates := [] } node).updates,
      (taintPairs u.Spec.Taints).Nodup := by
  intro u hu
  obtain ⟨r, _, hupd⟩ := processNode_mem lv now c ticks node u hu
  rcases hupd with ⟨_, hh, t, rfl⟩ | ⟨_, _, rfl⟩
  · have hnew : (r.TaintKey, r.TaintEffect) ∉ taintPairs node.Spec.Taints :=
      (hasTaint_eq_false_iff_not_mem_pairs node r.TaintKey r.TaintEffect).1 hh
    have hpairs : taintPairs (node.withTaints (node.Spec.Taints ++
        [{ Key := r.TaintKey, Value := "", Effect := r.TaintEffect, TimeAdded := some t }])).Spec.Taints =
        taintPairs node.Spec.Taints ++ [(r.TaintKey, r.TaintEffect)] := by
      simp [taintPairs, Node.withTaints]
    rw [hpairs]
    refine List.Nodup.append hnodup (List.nodup_singleton _) ?_
    intro x hx hx2
    rw [List.mem_singleton.1 hx2] at hx
    exact hnew hx
  · exact List.Nodup.sublist ((List.filter_sublist _).map _) hnodup

/-- Witness for C17: the update that adds `test-taint` to a node carrying a foreign
taint has no duplicate pair. -/
theorem processNode_no_duplicate_taint_witness :
    (processNode lvAll clock7 testCache World.init
        (mkNode [foreignTaint] [{ Type_ := "TestCondition", Status := ConditionFalse }])).updates =
      [mkNode [foreignTaint,
          { Key := "test-taint", Value := "", Effect := TaintEffectNoSchedule, TimeAdded := some 7 }]
        [{ Type_ := "TestCondition", Status := ConditionFalse }]] ∧
    (taintPairs (mkNode [foreignTaint,
          { Key := "test-taint", Value := "", Effect := TaintEffectNoSchedule, TimeAdded := some 7 }]
        [{ Type_ := "TestCondition", Status := ConditionFalse }]).Spec.Taints).Nodup :=
  ⟨by decide,
   processNode_no_duplicate_taint lvAll clock7 testCache 0
      (mkNode [foreignTaint] [{ Type_ := "TestCondition", Status := ConditionFalse }])
      (by unfold taintPairs; decide) _ (by decide)⟩

/-! ## Facts about the rule map -/

theorem lookup_map_replace {β : Type} (k k0 : String) (r : β) (l : List (String × β)) :
    (l.map (fun e => if e.1 == k0 then (e.1, r) else e)).lookup k =
      if k = k0 then (l.lookup k).map (fun _ => r) else l.lookup k := by
  induction l with
  | nil => simp
  | cons e rest ih =>
    obtain ⟨a, b⟩ := e
    by_cases hka : k = a
    · subst hka
      by_cases hk0 : k = k0
      · subst hk0
        simp [List.lookup_cons]
      · simp [List.lookup_cons, hk0]
    · have hne : (k == a) = false := by simpa using hka
      by_cases ha0 : a = k0
      · subst ha0
        simp only [List.map_cons, beq_self_eq_true, if_true, List.lookup_cons, hne, ih]
      · have hne2 : (a == k0) = false := by simpa using ha0
        simp only [List.map_cons, hne2, Bool.false_eq_true, if_false, List.lookup_cons, hne, ih]

theorem lookup_append_single {β : Type} (k k0 : String) (r : β) (l : List (String × β)) :
    (l ++ [(k0, r)]).lookup k =
      match l.lookup k with
      | some v => some v
      | none => if k = k0 then some r else none := by
  induction l with
  | nil =>
    by_cases h : k = k0
    · simp [List.lookup_cons, h]
    · have hne : (k == k0) = false := by simpa using h
      simp [List.lookup_cons, hne, h]
  | cons e rest ih =>
    obtain ⟨a, b⟩ := e
    by_cases hka : k = a
    · subst hka
      simp [List.lookup_cons]
    · have hne : (k == a) = false := by simpa using hka
      simp only [List.cons_append, List.lookup_cons, hne, ih]

theorem lookup_filter_ne {β : Type} (k k0 : String) (l : List (String × β)) :
    (l.filter (fun e => !(e.1 == k0))).lookup k = if k = k0 then none else l.lookup k := by
  induction l with
  | nil => simp
  | cons e rest ih =>
    obtain ⟨a, b⟩ := e
    by_cases ha0 : a = k0
    · subst ha0
      by_cases hka : k = a
      · subst hka
        simpa [List.filter_cons] using ih
      · have hne : (k == a) = false := by simpa using hka
        simp only [List.filter_cons, beq_self_eq_true, Bool.not_true, Bool.false_eq_true,
          if_false, List.lookup_cons, hne]
        exact ih
    · have hne2 : (a == k0) = false := by simpa using ha0
      by_cases hka : k = a
      · subst hka
        simp [List.filter_cons, hne2, List.lookup_cons, ha0]
      · have hne : (k == a) = false := by simpa using hka
        simp only [List.filter_cons, hne2, Bool.not_false, if_true, List.lookup_cons, hne, ih]

theorem any_key_eq_isSome_lookup {β : Type} (k : String) (l : List (String × β)) :
    l.any (fun e => e.1 == k) = (l.lookup k).isSome := by
  induction l with
  | nil => rfl
  | cons e rest ih =>
    obtain ⟨a, b⟩ := e
    by_cases hka : k = a
    · subst hka
      simp [List.lookup_cons]
    · have hne : (k == a) = false := by simpa using hka
      have hne2 : (a == k) = false := by simpa using fun h : a = k => hka h.symm
      simp only [List.any_cons, hne2, Bool.false_or, ih, List.lookup_cons, hne]

theorem mem_of_lookup_eq_some {β : Type} (k : String) (v : β) (l : List (String × β))
    (h : l.lookup k = some v) : (k, v) ∈ l := by
  induction l with
  | nil => simp at h
  | cons e rest ih =>
    obtain ⟨a, b⟩ := e
    by_cases hka : k = a
    · subst hka
      simp only [List.lookup_cons, beq_self_eq_true, Option.some.injEq] at h
      rw [h]
      exact List.mem_cons_self _ _
    · have hne : (k == a) = false := by simpa using hka
      simp only [List.lookup_cons, hne] at h
      exact List.mem_cons_of_mem _ (ih h)

theorem count_snd_le_count_fst (r : RulePtr) (key : String) (l : List (String × RulePtr))
    (h : ∀ e ∈ l, e.2 = r → e.1 = key) :
    (l.map Prod.snd).count r ≤ (l.map Prod.fst).count key := by
  induction l with
  | nil => simp
  | cons e rest ih =>
    have hrest := ih (fun x hx => h x (List.mem_cons_of_mem _ hx))
    by_cases he : e.2 = r
    · have hk : e.1 = key := h e (List.mem_cons_self _ _) he
      simp only [List.map_cons, he, hk, List.count_cons_self]
      exact Nat.succ_le_succ hrest
    · have he2 : r ≠ e.2 := fun h2 => he h2.symm
      simp only [List.map_cons, List.count_cons_of_ne he2]
      exact Nat.le_trans hrest (List.count_le_count_cons _ _ _)

theorem heap_AddReadinessRule (s : RuleCache) (r : RulePtr) :
    (AddReadinessRule s r).heap = s.heap := rfl

theorem heap_RemoveReadinessRule (s : RuleCache) (k : String) :
    (RemoveReadinessRule s k).heap = s.heap := rfl

theorem readinessRules_AddReadinessRule (s : RuleCache) (r : RulePtr) :
    (AddReadinessRule s r).readinessRules =
      if s.readinessRules.any (fun e => e.1 == (s.heap r).ConditionType) then
        s.readinessRules.map (fun e => if e.1 == (s.heap r).ConditionType then (e.1, r) else e)
      else s.readinessRules ++ [((s.heap r).ConditionType, r)] := rfl

theorem get?_AddReadinessRule_self (s : RuleCache) (r : RulePtr) :
    (AddReadinessRule s r).get? (s.heap r).ConditionType = some r := by
  unfold RuleCache.get?
  rw [readinessRules_AddReadinessRule]
  cases hany : s.readinessRules.any (fun e => e.1 == (s.heap r).ConditionType)
  · have hnone : s.readinessRules.lookup (s.heap r).ConditionType = none := by
      rw [any_key_eq_isSome_lookup] at hany
      exact Option.not_isSome_iff_eq_none.1 (by simp [hany])
    simp [lookup_append_single, hnone]
  · have hsome : (s.readinessRules.lookup (s.heap r).ConditionType).isSome = true := by
      rw [← any_key_eq_isSome_lookup]
      exact hany
    obtain ⟨v, hv⟩ := Option.isSome_iff_exists.1 hsome
    simp only [if_true]
    rw [lookup_map_replace, hv]
    simp

theorem get?_AddReadinessRule_other (s : RuleCache) (r : RulePtr) (k : String)
    (hk : k ≠ (s.heap r).ConditionType) :
    (AddReadinessRule s r).get? k = s.get? k := by
  unfold RuleCache.get?
  rw [readinessRules_AddReadinessRule]
  cases hany : s.readinessRules.any (fun e => e.1 == (s.heap r).ConditionType)
  · simp only [Bool.false_eq_true, if_false, lookup_append_single, hk]
    cases s.readinessRules.lookup k <;> rfl
  · simp only [if_true]
    rw [lookup_map_replace, if_neg hk]

theorem get?_RemoveReadinessRule (s : RuleCache) (k k2 : String) :
    (RemoveReadinessRule s k).get? k2 = if k2 = k then none else s.get? k2 := by
  unfold RemoveReadinessRule RuleCache.get?
  exact lookup_filter_ne k2 k s.readinessRules

theorem RemoveReadinessRule_absent (s : RuleCache) (k : String)
    (h : s.get? k = none) : RemoveReadinessRule s k = s := by
  unfold RemoveReadinessRule
  have hall : ∀ e ∈ s.readinessRules, (!(e.1 == k)) = true := by
    intro e he
    cases hek : e.1 == k
    · rfl
    · have hany : s.readinessRules.any (fun e => e.1 == k) = true :=
        List.any_eq_true.2 ⟨e, he, hek⟩
      rw [any_key_eq_isSome_lookup] at hany
      unfold RuleCache.get? at h
      rw [h] at hany
      exact absurd hany (by decide)
  rw [List.filter_eq_self.2 hall]

theorem keys_nodup_AddReadinessRule (s : RuleCache) (r : RulePtr) (h : s.keys.Nodup) :
    (AddReadinessRule s r).keys.Nodup := by
  unfold RuleCache.keys at *
  rw [readinessRules_AddReadinessRule]
  cases hany : s.readinessRules.any (fun e => e.1 == (s.heap r).ConditionType)
  · simp only [Bool.false_eq_true, if_false, List.map_append, List.map_cons, List.map_nil]
    refine List.Nodup.append h (List.nodup_singleton _) ?_
    intro x hx hx2
    rw [List.mem_singleton.1 hx2] at hx
    obtain ⟨e, he, hek⟩ := List.mem_map.1 hx
    have : s.readinessRules.any (fun e => e.1 == (s.heap r).ConditionType) = true :=
      List.any_eq_true.2 ⟨e, he, by simp [hek]⟩
    rw [hany] at this
    exact absurd this (by decide)
  · simp only [if_true]
    have hsame : (s.readinessRules.map
        (fun e => if e.1 == (s.heap r).ConditionType then (e.1, r) else e)).map Prod.fst =
        s.readinessRules.map Prod.fst := by
      rw [List.map_map]
      apply List.map_congr_left
      intro e _
      simp only [Function.comp]
      split <;> rfl
    rw [hsame]
    exact h

theorem keys_nodup_RemoveReadinessRule (s : RuleCache) (k : String) (h : s.keys.Nodup) :
    (RemoveReadinessRule s k).keys.Nodup := by
  unfold RuleCache.keys RemoveReadinessRule at *
  exact List.Nodup.sublist ((List.filter_sublist _).map _) h

theorem pointer_key_AddReadinessRule (s : RuleCache) (r : RulePtr)
    (h : ∀ e ∈ s.readinessRules, e.2 = r → e.1 = (s.heap r).ConditionType) :
    ∀ e ∈ (AddReadinessRule s r).readinessRules, e.2 = r → e.1 = (s.heap r).ConditionType := by
  rw [readinessRules_AddReadinessRule]
  cases hany : s.readinessRules.any (fun e => e.1 == (s.heap r).ConditionType)
  · simp only [Bool.false_eq_true, if_false]
    intro e he her
    rcases List.mem_append.1 he with h1 | h1
    · exact h e h1 her
    · rw [List.mem_singleton.1 h1]
  · simp only [if_true]
    intro e he her
    obtain ⟨x, hx, hmap⟩ := List.mem_map.1 he
    by_cases hxk : x.1 = (s.heap r).ConditionType
    · simp only [hxk, beq_self_eq_true, if_true] at hmap
      rw [← hmap]
    · have hne : (x.1 == (s.heap r).ConditionType) = false := by simpa using hxk
      simp only [hne, Bool.false_eq_true, if_false] at hmap
      rw [← hmap] at her ⊢
      exact h x hx her

/-- Dereferencing the pointers that are returned gives the rules of
`getApplicableRulesForNode` on the dereferenced map. -/
theorem getApplicableRulePointers_deref (lv : LabelValidation) (s : RuleCache) (node : Node) :
    (getApplicableRulePointers lv s node).map s.heap =
      getApplicableRulesForNode lv s.deref node := by
  unfold getApplicableRulePointers getApplicableRulesForNode RuleCache.deref
  induction s.readinessRules with
  | nil => rfl
  | cons e rest ih =>
    simp only [List.map_cons, List.filter_cons]
    cases happ : ruleAppliesTo lv (s.heap e.2) node
    · simpa using ih
    · simpa using ih

/-- C15 (refuted as stated): the map keeps the pointer of the caller. After
`AddReadinessRule` of a rule for condition `A`, a write of the caller that sets its
`ConditionType` to `B`, and `AddReadinessRule` of the same pointer again, the one
rule sits under the keys `A` and `B`: `getApplicableRulesForNode` returns it twice,
and after `RemoveReadinessRule "B"` it still returns the rule that key held. -/
theorem rule_cache_aliased_pointer :
    cacheAfterAdd.readinessRules = [("A", 0)] ∧
    cacheAliased.readinessRules = [("A", 0), ("B", 0)] ∧
    cacheAliased.keys.Nodup ∧
    getApplicableRulePointers lvAll cacheAliased bareNode = [0, 0] ∧
    (getApplicableRulePointers lvAll cacheAliased bareNode).count 0 = 2 ∧
    (getApplicableRulesForNode lvAll cacheAliased.deref bareNode).count (cacheAliased.heap 0) = 2 ∧
    cacheAliased.get? "B" = some 0 ∧
    (RemoveReadinessRule cacheAliased "B").get? "B" = none ∧
    0 ∈ getApplicableRulePointers lvAll (RemoveReadinessRule cacheAliased "B") bareNode := by
  decide

/-- C15 (amended): on every rule map, `AddReadinessRule r` leaves the pointer `r` as
the entry under the key of `r`, that key occurs once, every other key keeps its
entry and no rule is written; `RemoveReadinessRule k` leaves no entry under `k`,
changes nothing when `k` was absent, and every other key keeps its entry. When `r`
is stored under no other key, `getApplicableRulesForNode` returns `r` at most once
after the add; when the pointer removed from `k` is stored under no other key, it is
not returned after the removal. -/
theorem rule_cache_finite_map (lv : LabelValidation) (s : RuleCache) (r : RulePtr)
    (k : String) (node : Node) (hkeys : s.keys.Nodup) :
    (AddReadinessRule s r).get? (s.heap r).ConditionType = some r ∧
    (AddReadinessRule s r).keys.count (s.heap r).ConditionType = 1 ∧
    (∀ k2 : String, k2 ≠ (s.heap r).ConditionType →
      (AddReadinessRule s r).get? k2 = s.get? k2) ∧
    (AddReadinessRule s r).heap = s.heap ∧
    (RemoveReadinessRule s k).get? k = none ∧
    (s.get? k = none → RemoveReadinessRule s k = s) ∧
    (∀ k2 : String, k2 ≠ k → (RemoveReadinessRule s k).get? k2 = s.get? k2) ∧
    (RemoveReadinessRule s k).heap = s.heap ∧
    ((∀ e ∈ s.readinessRules, e.2 = r → e.1 = (s.heap r).ConditionType) →
      (getApplicableRulePointers lv (AddReadinessRule s r) node).count r ≤ 1) ∧
    (∀ removed : RulePtr, s.get? k = some removed →
      (∀ e ∈ s.readinessRules, e.2 = removed → e.1 = k) →
      removed ∉ getApplicableRulePointers lv (RemoveReadinessRule s k) node) := by
  have hself := get?_AddReadinessRule_self s r
  have hnodup := keys_nodup_AddReadinessRule s r hkeys
  have hcount : (AddReadinessRule s r).keys.count (s.heap r).ConditionType = 1 := by
    have hmem : (s.heap r).ConditionType ∈ (AddReadinessRule s r).keys :=
      List.mem_map.2 ⟨((s.heap r).ConditionType, r), mem_of_lookup_eq_some _ _ _ hself, rfl⟩
    exact List.count_eq_one_of_mem hnodup hmem
  refine ⟨hself, hcount, fun k2 hk2 => get?_AddReadinessRule_other s r k2 hk2, rfl, ?_,
    RemoveReadinessRule_absent s k, ?_, rfl, ?_, ?_⟩
  · rw [get?_RemoveReadinessRule, if_pos rfl]
  · intro k2 hk2
    rw [get?_RemoveReadinessRule, if_neg hk2]
  · intro honly
    have hall := pointer_key_AddReadinessRule s r honly
    have h1 : ((AddReadinessRule s r).readinessRules.map Prod.snd).count r ≤ 1 := by
      have := count_snd_le_count_fst r _ _ hall
      unfold RuleCache.keys at hcount
      rw [hcount] at this
      exact this
    exact Nat.le_trans ((List.filter_sublist _).count_le r) h1
  · intro removed _ honly hmem
    obtain ⟨entry, hentry, hsnd⟩ := List.mem_map.1 (List.mem_filter.1 hmem).1
    have hentry2 := List.mem_filter.1 hentry
    have hne : entry.1 ≠ k := by simpa using hentry2.2
    exact hne (honly entry hentry2.1 hsnd)

/-- Witness for C15 (amended): in the map that holds pointer 0 under `A`, adding
pointer 1, whose rule is for condition `B`, stores it under `B` and keeps `A`;
pointer 1 is returned once; after removing `A`, pointer 0 is not returned. -/
theorem rule_cache_finite_map_witness :
    (AddReadinessRule cacheAfterAdd 1).get? "B" = some 1 ∧
    (AddReadinessRule cacheAfterAdd 1).get? "A" = cacheAfterAdd.get? "A" ∧
    (getApplicableRulePointers lvAll (AddReadinessRule cacheAfterAdd 1) bareNode).count 1 ≤ 1 ∧
    0 ∉ getApplicableRulePointers lvAll (RemoveReadinessRule cacheAfterAdd "A") bareNode :=
  ⟨(rule_cache_finite_map lvAll cacheAfterAdd 1 "A" bareNode (by decide)).1,
   (rule_cache_finite_map lvAll cacheAfterAdd 1 "A" bareNode (by decide)).2.2.1 "A" (by decide),
   (rule_cache_finite_map lvAll cacheAfterAdd 1 "A" bareNode (by decide)).2.2.2.2.2.2.2.2.1
      (by decide),
   (rule_cache_finite_map lvAll cacheAfterAdd 1 "A" bareNode (by decide)).2.2.2.2.2.2.2.2.2
      0 (by decide) (by decide)⟩

end ReadinessGate
